import Mathlib

/-!
Verification development for the arena subsystem of `src/arena.c`
(a mimalloc fork).  The definitions below are a shallow embedding of the
C source: registries, arenas and bitmaps become Lean structures, machine
words become `Nat` with explicit masks, OS primitives and configuration
options become explicit oracle records, and the atomic operations are
executed sequentially (single-threaded interleaving-free semantics).

The atomic-bitmap primitives (`bitmap.h` / `bitmap.c`) are not part of
the provided sources; they are modelled from the specification, section
4.1, and each such definition is marked `Modelled from the spec:` in its
doc comment.  Everything else is translated from `src/arena.c`.
-/

namespace MimallocArena

/-- Size of one arena block, `MI_ARENA_BLOCK_SIZE = MI_SEGMENT_SIZE` (64 MiB). -/
def MI_ARENA_BLOCK_SIZE : Nat := 2 ^ 26

/-- Minimal object size allocated from an arena, `MI_ARENA_BLOCK_SIZE / 2` (32 MiB). -/
def MI_ARENA_MIN_OBJ_SIZE : Nat := MI_ARENA_BLOCK_SIZE / 2

/-- Maximal number of registered arenas. -/
def MI_MAX_ARENAS : Nat := 112

/-- Bits in one bitmap field (a machine word, 64-bit target). -/
def MI_BITMAP_FIELD_BITS : Nat := 64

/-- Segment alignment; per the spec the arena block size equals the
segment alignment of the allocator. -/
def MI_SEGMENT_ALIGN : Nat := MI_ARENA_BLOCK_SIZE

/-- Size of the static meta-arena buffer: `MI_INTPTR_SIZE * MI_KiB` = 8 KiB on 64-bit. -/
def MI_ARENA_STATIC_MAX : Nat := 8 * 1024

/-- Maximal natural alignment guaranteed by the allocator (16 on 64-bit). -/
def MI_MAX_ALIGN_SIZE : Nat := 16

/-- Helper `_mi_divide_up(size, n)`: ceiling division. -/
def _mi_divide_up (size n : Nat) : Nat := (size + n - 1) / n

/-- Helper `_mi_align_up(size, a)`: round `size` up to a multiple of `a`. -/
def _mi_align_up (size a : Nat) : Nat := ((size + a - 1) / a) * a

/-! ## Atomic bitmap model

A whole multi-field bitmap is one `Nat`; bit `64*f + j` is bit `j` of
field `f`.  This matches `mi_bitmap_index_t`, which is the flat bit
index `idx*MI_BITMAP_FIELD_BITS + bitidx`. -/

/-- Mask with bits `[idx, idx+n)` set. -/
def bmMask (n idx : Nat) : Nat := (2 ^ n - 1) <<< idx

/-- Set bits `[idx, idx+n)` of `bm`. -/
def bmSetRange (bm n idx : Nat) : Nat := bm ||| bmMask n idx

/-- Clear bits `[idx, idx+n)` of `bm`. -/
def bmClearRange (bm n idx : Nat) : Nat := bm ^^^ (bm &&& bmMask n idx)

/-- All bits of `[idx, idx+n)` set in `bm`? -/
def bmAllSet (bm n idx : Nat) : Bool := bm &&& bmMask n idx == bmMask n idx

/-- Any bit of `[idx, idx+n)` set in `bm`? -/
def bmAnySet (bm n idx : Nat) : Bool := bm &&& bmMask n idx != 0

/-- Modelled from the spec: `claim_across(fields, run_length, bit_index)`
forces the run's bits set; it reports whether all of the bits were
previously clear, and whether any of the bits was previously clear
(the source passes the latter out through `pany_zero`).
Returns `(new bitmap, all_previously_zero, any_previously_zero)`. -/
def bmClaimAcross (bm n idx : Nat) : Nat × Bool × Bool :=
  (bmSetRange bm n idx, !bmAnySet bm n idx, !bmAllSet bm n idx)

/-- Modelled from the spec: `unclaim_across(fields, run_length, bit_index)`
clears the run's bits and reports whether all bits were previously set
(`false` detects a double free).  Returns `(new bitmap, all_previously_set)`. -/
def bmUnclaimAcross (bm n idx : Nat) : Nat × Bool :=
  (bmClearRange bm n idx, bmAllSet bm n idx)

/-- Modelled from the spec: `is_claimed_across` reports whether the whole
run is set. -/
def bmIsClaimedAcross (bm n idx : Nat) : Bool := bmAllSet bm n idx

/-- Modelled from the spec: `try_claim_one` (`_mi_bitmap_try_claim`), the
single-step compare-and-swap claim used by the purge engine to re-acquire
`inuse` over a run: it succeeds only if the whole run is currently clear. -/
def bmTryClaim (bm n idx : Nat) : Option Nat :=
  if bmAnySet bm n idx then none else some (bmSetRange bm n idx)

/-- First position of `ps` at which the `n`-bit run of `bm` is entirely clear. -/
def bmFindFree (bm n : Nat) : List Nat → Option Nat
  | [] => none
  | p :: ps => if bmAnySet bm n p then bmFindFree bm n ps else some p

/-- Candidate start positions for a free-run search over `fieldCount`
fields: scan forward from bit `64*startField`, wrapping around, keeping
only positions where an `n`-bit run still fits inside the bitmap. -/
def bmCandidates (fieldCount startField n : Nat) : List Nat :=
  ((List.range (MI_BITMAP_FIELD_BITS * fieldCount)).map
      (fun i => (MI_BITMAP_FIELD_BITS * startField + i) % (MI_BITMAP_FIELD_BITS * fieldCount))).filter
    (fun p => p + n ≤ MI_BITMAP_FIELD_BITS * fieldCount)

/-- Modelled from the spec: `try_find_and_claim_across(fields,
start_field_hint, run_length)` scans forward from `start_field_hint`,
wrapping, for a cleared run of `run_length` bits and, on success, flips
the run from 0 to 1 as a whole, returning the new bitmap and the starting
bit index. -/
def bmTryFindClaimAcross (fieldCount bm startField n : Nat) : Option (Nat × Nat) :=
  match bmFindFree bm n (bmCandidates fieldCount startField n) with
  | none => none
  | some p => some (bmSetRange bm n p, p)

/-- Value of field `i` of the flat bitmap `bm` (a 64-bit word). -/
def bmField (bm i : Nat) : Nat :=
  (bm >>> (MI_BITMAP_FIELD_BITS * i)) % (2 ^ MI_BITMAP_FIELD_BITS)

/-- Translation of `mi_bitmap_index_create`. -/
def mi_bitmap_index_create (idx bitidx : Nat) : Nat := idx * MI_BITMAP_FIELD_BITS + bitidx

/-- Translation of `mi_bitmap_index_field`. -/
def mi_bitmap_index_field (bitmapIdx : Nat) : Nat := bitmapIdx / MI_BITMAP_FIELD_BITS

/-! ### Bit-level lemmas about the bitmap model -/

theorem testBit_bmMask (n idx b : Nat) :
    (bmMask n idx).testBit b = (decide (idx ≤ b) && decide (b < idx + n)) := by
  simp only [bmMask, Nat.testBit_shiftLeft, Nat.testBit_two_pow_sub_one]
  by_cases h1 : idx ≤ b
  · have h2 : (b - idx < n) ↔ (b < idx + n) := by omega
    simp [ge_iff_le, h1, h2]
  · simp [ge_iff_le, h1]

theorem testBit_bmSetRange (bm n idx b : Nat) :
    (bmSetRange bm n idx).testBit b
      = (bm.testBit b || (decide (idx ≤ b) && decide (b < idx + n))) := by
  simp [bmSetRange, Nat.testBit_lor, testBit_bmMask]

theorem testBit_bmClearRange (bm n idx b : Nat) :
    (bmClearRange bm n idx).testBit b
      = (bm.testBit b && !(decide (idx ≤ b) && decide (b < idx + n))) := by
  simp only [bmClearRange, Nat.testBit_xor, Nat.testBit_land, testBit_bmMask]
  cases bm.testBit b <;> cases (decide (idx ≤ b) && decide (b < idx + n)) <;> rfl

theorem bmAnySet_iff (bm n idx : Nat) :
    bmAnySet bm n idx = true ↔ ∃ b, idx ≤ b ∧ b < idx + n ∧ bm.testBit b = true := by
  constructor
  · intro h
    by_contra hall
    push_neg at hall
    have hzero : bm &&& bmMask n idx = 0 := by
      apply Nat.eq_of_testBit_eq
      intro i
      simp only [Nat.testBit_land, testBit_bmMask, Nat.zero_testBit]
      by_cases h1 : idx ≤ i
      · by_cases h2 : i < idx + n
        · have := hall i h1 h2
          simp [this]
        · simp [h2]
      · simp [h1]
    simp [bmAnySet, hzero] at h
  · rintro ⟨b, h1, h2, h3⟩
    simp only [bmAnySet, ne_eq, bne_iff_ne]
    intro hz
    have : (bm &&& bmMask n idx).testBit b = false := by simp [hz]
    simp [Nat.testBit_land, testBit_bmMask, h1, h2, h3] at this

theorem bmAnySet_false_iff (bm n idx : Nat) :
    bmAnySet bm n idx = false ↔ ∀ b, idx ≤ b → b < idx + n → bm.testBit b = false := by
  constructor
  · intro h b h1 h2
    cases hb : bm.testBit b
    · rfl
    · exact absurd ((bmAnySet_iff bm n idx).mpr ⟨b, h1, h2, hb⟩) (by simp [h])
  · intro h
    cases hb : bmAnySet bm n idx
    · rfl
    · rcases (bmAnySet_iff bm n idx).mp hb with ⟨b, h1, h2, h3⟩
      rw [h b h1 h2] at h3
      exact absurd h3 (by simp)

theorem bmAllSet_iff (bm n idx : Nat) :
    bmAllSet bm n idx = true ↔ ∀ b, idx ≤ b → b < idx + n → bm.testBit b = true := by
  constructor
  · intro h b h1 h2
    have he : bm &&& bmMask n idx = bmMask n idx := by
      simpa [bmAllSet] using h
    have : (bm &&& bmMask n idx).testBit b = (bmMask n idx).testBit b := by rw [he]
    simp [Nat.testBit_land, testBit_bmMask, h1, h2] at this
    exact this
  · intro h
    have he : bm &&& bmMask n idx = bmMask n idx := by
      apply Nat.eq_of_testBit_eq
      intro i
      simp only [Nat.testBit_land, testBit_bmMask]
      by_cases h1 : idx ≤ i
      · by_cases h2 : i < idx + n
        · simp [h1, h2, h i h1 h2]
        · simp [h2]
      · simp [h1]
    simp [bmAllSet, he]

/-- Setting a fully-set range is a no-op. -/
theorem bmSetRange_of_allSet {bm n idx : Nat} (h : bmAllSet bm n idx = true) :
    bmSetRange bm n idx = bm := by
  apply Nat.eq_of_testBit_eq
  intro b
  rw [testBit_bmSetRange]
  by_cases h1 : idx ≤ b
  · by_cases h2 : b < idx + n
    · simp [(bmAllSet_iff bm n idx).mp h b h1 h2]
    · simp [h2]
  · simp [h1]

/-- Clearing an all-clear range is a no-op. -/
theorem bmClearRange_of_anyClear {bm n idx : Nat} (h : bmAnySet bm n idx = false) :
    bmClearRange bm n idx = bm := by
  apply Nat.eq_of_testBit_eq
  intro b
  rw [testBit_bmClearRange]
  by_cases h1 : idx ≤ b
  · by_cases h2 : b < idx + n
    · simp [(bmAnySet_false_iff bm n idx).mp h b h1 h2]
    · simp [h2]
  · simp [h1]

/-- Clearing an immediately previously set range restores the bitmap. -/
theorem bmClearRange_bmSetRange {bm n idx : Nat} (h : bmAnySet bm n idx = false) :
    bmClearRange (bmSetRange bm n idx) n idx = bm := by
  apply Nat.eq_of_testBit_eq
  intro b
  rw [testBit_bmClearRange, testBit_bmSetRange]
  by_cases h1 : idx ≤ b
  · by_cases h2 : b < idx + n
    · have hb := (bmAnySet_false_iff bm n idx).mp h b h1 h2
      simp [h1, h2, hb]
    · simp [h2]
  · simp [h1]

theorem bmTryClaim_some {bm n idx bm2 : Nat} (h : bmTryClaim bm n idx = some bm2) :
    bmAnySet bm n idx = false ∧ bm2 = bmSetRange bm n idx := by
  by_cases hc : bmAnySet bm n idx
  · simp [bmTryClaim, hc] at h
  · simp only [bmTryClaim, hc, Bool.false_eq_true, if_false, Option.some.injEq] at h
    exact ⟨by simpa using hc, h.symm⟩

theorem bmFindFree_some {bm n : Nat} {ps : List Nat} {p : Nat}
    (h : bmFindFree bm n ps = some p) : p ∈ ps ∧ bmAnySet bm n p = false := by
  induction ps with
  | nil => simp [bmFindFree] at h
  | cons q qs ih =>
    by_cases hq : bmAnySet bm n q
    · simp only [bmFindFree, hq, if_true] at h
      rcases ih h with ⟨h1, h2⟩
      exact ⟨List.mem_cons_of_mem _ h1, h2⟩
    · simp only [bmFindFree, hq, Bool.false_eq_true, if_false, Option.some.injEq] at h
      exact ⟨by simp [h], h ▸ (by simpa using hq)⟩

theorem bmCandidates_mem {fieldCount startField n p : Nat}
    (h : p ∈ bmCandidates fieldCount startField n) :
    p + n ≤ MI_BITMAP_FIELD_BITS * fieldCount := by
  rcases (List.mem_filter).mp h with ⟨_, h2⟩
  simpa using h2

theorem bmTryFindClaimAcross_some {fieldCount bm startField n bm2 p : Nat}
    (h : bmTryFindClaimAcross fieldCount bm startField n = some (bm2, p)) :
    bm2 = bmSetRange bm n p ∧ bmAnySet bm n p = false ∧
      p + n ≤ MI_BITMAP_FIELD_BITS * fieldCount := by
  unfold bmTryFindClaimAcross at h
  rcases hf : bmFindFree bm n (bmCandidates fieldCount startField n) with _ | q
  · rw [hf] at h
    simp at h
  · rw [hf] at h
    simp only [Option.some.injEq, Prod.mk.injEq] at h
    rcases bmFindFree_some hf with ⟨hmem, hany⟩
    rcases h with ⟨h1, h2⟩
    subst h2
    exact ⟨h1.symm, hany, bmCandidates_mem hmem⟩

/-! ## Memory identifiers (`mi_memid_t`) -/

/-- Provenance kinds of a memory id (`mi_memkind_t`), restricted to the
kinds the arena code distinguishes. -/
inductive MemKind where
  | none
  | external
  | static
  | os
  | arena
deriving DecidableEq, Repr

/-- Translation of `mi_memid_t`.  The arena payload (`id`, `block_index`,
`is_exclusive`) is meaningful when `kind = .arena`. -/
structure Memid where
  kind : MemKind
  arenaId : Int
  blockIndex : Nat
  isExclusive : Bool
  initiallyZero : Bool
  initiallyCommitted : Bool
  isPinned : Bool
deriving DecidableEq, Repr

/-- Translation of `_mi_memid_none()`. -/
def _mi_memid_none : Memid :=
  ⟨MemKind.none, 0, 0, false, false, false, false⟩

/-- Translation of `_mi_memid_create(memkind)` (all flags clear). -/
def _mi_memid_create (k : MemKind) : Memid :=
  ⟨k, 0, 0, false, false, false, false⟩

/-- Translation of `mi_memid_create_arena(id, is_exclusive, bitmap_index)`. -/
def mi_memid_create_arena (id : Int) (isExclusive : Bool) (bitmapIndex : Nat) : Memid :=
  { _mi_memid_create MemKind.arena with
      arenaId := id, blockIndex := bitmapIndex, isExclusive := isExclusive }

/-! ## Arena descriptor and registry -/

/-- Translation of `mi_arena_t`.  The five bitmaps are flat `Nat`s;
`committed`/`purge` are `none` exactly when the C pointers are `NULL`
(pinned memory).  `memid` is the memid of the backing memory area. -/
structure Arena where
  id : Int
  memid : Memid
  start : Nat
  blockCount : Nat
  fieldCount : Nat
  numaNode : Int
  exclusive : Bool
  isLarge : Bool
  searchIdx : Nat
  purgeExpire : Int
  dirty : Nat
  committed : Option Nat
  purge : Option Nat
  abandoned : Nat
  inuse : Nat
deriving DecidableEq, Repr

/-- The global registry: `mi_arenas[MI_MAX_ARENAS]` plus `mi_arena_count`.
The list models the fixed C array (length `MI_MAX_ARENAS`); a `none`
entry is a `NULL` slot. -/
structure Registry where
  count : Nat
  arenas : List (Option Arena)
deriving DecidableEq, Repr

/-- Configuration options read by the arena code (section 6.3 of the spec). -/
structure Opts where
  arenaReserve : Nat
  arenaEagerCommit : Int
  purgeDelay : Int
  arenaPurgeMult : Int
  purgeDecommits : Bool
  disallowArenaAlloc : Bool
  disallowOsAlloc : Bool
deriving DecidableEq, Repr

/-- The OS primitive interface and ambient environment (section 6.2 of the
spec), as a deterministic oracle: each field is the answer the OS gives
when the arena code consults it during one operation. -/
structure OS where
  preloading : Bool
  hasVirtualReserve : Bool
  hasOvercommit : Bool
  numaNode : Int
  clockNow : Int
  metaAllocOk : Bool
  reserveOsAllocOk : Bool
  reserveOsAllocPinned : Bool
  reserveOsAllocZero : Bool
  reserveOsAllocAddr : Nat
  commitOk : Bool
  commitZero : Bool
  purgeNeedsRecommit : Bool
  osAllocOk : Bool
  osAllocZero : Bool
  osAllocPinned : Bool
  osAllocAddr : Nat
deriving DecidableEq, Repr

/-! ## Static meta-arena (`mi_arena_static_zalloc`) -/

/-- State of the static meta-arena: the bump pointer `mi_arena_static_top`
and the byte contents of the `mi_arena_static` buffer. -/
structure StaticArena where
  top : Nat
  buf : Nat → Nat

/-- Translation of `mi_arena_static_zalloc(size, alignment, &memid)`.
Returns the new state and, on success, the offset of the returned pointer
inside the static buffer together with the memid.  A `none` result models
a `NULL` return (the out-parameter memid is `_mi_memid_none` there). -/
def mi_arena_static_zalloc (st : StaticArena) (size alignment : Nat) :
    StaticArena × Option (Nat × Memid) :=
  if size == 0 || size > MI_ARENA_STATIC_MAX then (st, none)
  else
    let toplow := st.top
    if toplow + size > MI_ARENA_STATIC_MAX then (st, none)
    else
      let alignment2 := if alignment < MI_MAX_ALIGN_SIZE then MI_MAX_ALIGN_SIZE else alignment
      let oversize := size + alignment2 - 1
      if toplow + oversize > MI_ARENA_STATIC_MAX then (st, none)
      else
        let oldtop := st.top
        let top := oldtop + oversize
        if top > MI_ARENA_STATIC_MAX then
          ({ st with top := oldtop }, none)
        else
          let start := _mi_align_up oldtop alignment2
          ({ top := top,
             buf := fun b => if start ≤ b ∧ b < start + size then 0 else st.buf b },
           some (start,
             { _mi_memid_create MemKind.static with initiallyZero := true }))

/-! ## Arena ids and sizes -/

/-- Translation of `_mi_arena_id_none()`. -/
def _mi_arena_id_none : Int := 0

/-- Translation of `mi_arena_id_index(id)`: `id <= 0` maps to
`MI_MAX_ARENAS`, otherwise `id - 1`. -/
def mi_arena_id_index (id : Int) : Nat :=
  if id ≤ 0 then MI_MAX_ARENAS else (id - 1).toNat

/-- Translation of `mi_arena_id_create(arena_index)`. -/
def mi_arena_id_create (arenaIndex : Nat) : Int := (arenaIndex : Int) + 1

/-- Translation of `mi_arena_id_is_suitable(arena_id, arena_is_exclusive,
req_arena_id)`. -/
def mi_arena_id_is_suitable (arenaId : Int) (arenaIsExclusive : Bool) (reqArenaId : Int) : Bool :=
  (!arenaIsExclusive && reqArenaId == _mi_arena_id_none) || (arenaId == reqArenaId)

/-- Translation of `mi_block_count_of_size(size)`. -/
def mi_block_count_of_size (size : Nat) : Nat := _mi_divide_up size MI_ARENA_BLOCK_SIZE

/-- Translation of `mi_arena_block_size(bcount)`. -/
def mi_arena_block_size (bcount : Nat) : Nat := bcount * MI_ARENA_BLOCK_SIZE

/-! ## Thread-safe claim inside an arena -/

/-- Translation of `mi_arena_try_claim(arena, blocks, ...)`.  NOTE: the
source initializes the search start as `size_t idx = 0;` — the load of
`arena->search_idx` is commented out — and on success publishes
`search_idx := mi_bitmap_index_field(bitmap_idx)`. -/
def mi_arena_try_claim (a : Arena) (blocks : Nat) : Option (Arena × Nat) :=
  match bmTryFindClaimAcross a.fieldCount a.inuse 0 blocks with
  | Option.none => none
  | some (inuse2, bitmapIdx) =>
      some ({ a with inuse := inuse2, searchIdx := mi_bitmap_index_field bitmapIdx }, bitmapIdx)

/-- The block-claim operation as the specification words it: the free-run
search starts from the arena's `search_idx` hint (field index of the last
successful allocation).  Kept separate from `mi_arena_try_claim` (the
source) so the two can be compared. -/
def mi_arena_try_claim_spec (a : Arena) (blocks : Nat) : Option (Arena × Nat) :=
  match bmTryFindClaimAcross a.fieldCount a.inuse a.searchIdx blocks with
  | Option.none => none
  | some (inuse2, bitmapIdx) =>
      some ({ a with inuse := inuse2, searchIdx := mi_bitmap_index_field bitmapIdx }, bitmapIdx)

/-- Unclaim a purge range when the purge bitmap exists (`blocks_purge !=
NULL` guard of the source; `none` stays `none`). -/
def purgeClear (purge : Option Nat) (n idx : Nat) : Option Nat :=
  match purge with
  | Option.none => none
  | some pu => some (bmClearRange pu n idx)

/-- Translation of `mi_arena_try_alloc_at(arena, arena_index, needed_bcount,
commit, memid, tld)`.  Returns the updated arena, the memid and the
address on success. -/
def mi_arena_try_alloc_at (os : OS) (a : Arena) (neededBcount : Nat) (commit : Bool) :
    Option (Arena × Memid × Nat) :=
  match mi_arena_try_claim a neededBcount with
  | Option.none => none
  | some (a1, bitmapIndex) =>
    let p := a.start + mi_arena_block_size bitmapIndex
    let m0 := { mi_memid_create_arena a.id a.exclusive bitmapIndex with
                  isPinned := a.memid.isPinned }
    -- none of the claimed blocks should remain scheduled for a decommit
    let a2 := { a1 with purge := purgeClear a1.purge neededBcount bitmapIndex }
    -- set the dirty bits
    let dirtyAllZero := !bmAnySet a2.dirty neededBcount bitmapIndex
    let a3 := if a.memid.initiallyZero then
                { a2 with dirty := bmSetRange a2.dirty neededBcount bitmapIndex }
              else a2
    let m1 := if a.memid.initiallyZero then { m0 with initiallyZero := dirtyAllZero } else m0
    -- set the commit state
    match a3.committed with
    | Option.none =>
        -- always committed
        some (a3, { m1 with initiallyCommitted := true }, p)
    | some c =>
      if commit then
        let anyUncommitted := !bmAllSet c neededBcount bitmapIndex
        let a4 := { a3 with committed := some (bmSetRange c neededBcount bitmapIndex) }
        if anyUncommitted then
          if os.commitOk then
            some (a4,
              { m1 with
                  initiallyCommitted := true
                  initiallyZero := m1.initiallyZero || os.commitZero }, p)
          else
            some (a4, { m1 with initiallyCommitted := false }, p)
        else
          some (a4, { m1 with initiallyCommitted := true }, p)
      else
        some (a3, { m1 with initiallyCommitted := bmIsClaimedAcross c neededBcount bitmapIndex }, p)

/-- Numa rejection test of `mi_arena_try_alloc_at_id`: when no specific
arena is requested, reject an arena that is numa-unsuitable (pass 1,
`match_numa_node`) or numa-suitable (pass 2). -/
def numaReject (matchNumaNode : Bool) (numaNode arenaNuma : Int) : Bool :=
  let numaSuitable := numaNode < 0 || arenaNuma < 0 || arenaNuma == numaNode
  if matchNumaNode then !numaSuitable else numaSuitable

/-- Translation of `mi_arena_try_alloc_at_id(arena_id, match_numa_node,
numa_node, size, alignment, commit, allow_large, req_arena_id, ...)`.
Returns the (possibly updated) registry and the result. -/
def mi_arena_try_alloc_at_id (os : OS) (s : Registry) (arenaId : Int) (matchNumaNode : Bool)
    (numaNode : Int) (size : Nat) (commit allowLarge : Bool) (reqArenaId : Int) :
    Registry × Option (Memid × Nat) :=
  let bcount := mi_block_count_of_size size
  let arenaIndex := mi_arena_id_index arenaId
  match s.arenas.getD arenaIndex none with
  | Option.none => (s, none)
  | some a =>
    if !allowLarge && a.isLarge then (s, none)
    else if !mi_arena_id_is_suitable a.id a.exclusive reqArenaId then (s, none)
    else if reqArenaId == _mi_arena_id_none && numaReject matchNumaNode numaNode a.numaNode then
      (s, none)
    else
      match mi_arena_try_alloc_at os a bcount commit with
      | Option.none => (s, none)
      | some (a2, m, p) => ({ s with arenas := s.arenas.set arenaIndex (some a2) }, some (m, p))

/-- Loop body of `mi_arena_try_alloc`: try each arena index in order,
returning the first success. -/
def mi_arena_try_alloc_loop (os : OS) (s : Registry) (matchNumaNode : Bool) (numaNode : Int)
    (size : Nat) (commit allowLarge : Bool) (reqArenaId : Int) :
    List Nat → Registry × Option (Memid × Nat)
  | [] => (s, none)
  | i :: is =>
    match mi_arena_try_alloc_at_id os s (mi_arena_id_create i) matchNumaNode numaNode size
        commit allowLarge reqArenaId with
    | (s2, some r) => (s2, some r)
    | (_, Option.none) =>
        mi_arena_try_alloc_loop os s matchNumaNode numaNode size commit allowLarge reqArenaId is

/-- Translation of `mi_arena_try_alloc(numa_node, size, alignment, commit,
allow_large, req_arena_id, ...)`. -/
def mi_arena_try_alloc (os : OS) (s : Registry) (numaNode : Int) (size : Nat)
    (commit allowLarge : Bool) (reqArenaId : Int) : Registry × Option (Memid × Nat) :=
  let maxArena := s.count
  if maxArena == 0 then (s, none)
  else if reqArenaId != _mi_arena_id_none then
    -- try a specific arena if requested
    if mi_arena_id_index reqArenaId < maxArena then
      mi_arena_try_alloc_at_id os s reqArenaId true numaNode size commit allowLarge reqArenaId
    else (s, none)
  else
    -- try numa-affine allocation, then any other numa node
    match mi_arena_try_alloc_loop os s true numaNode size commit allowLarge reqArenaId
        (List.range maxArena) with
    | (s2, some r) => (s2, some r)
    | (_, Option.none) =>
      if numaNode ≥ 0 then
        mi_arena_try_alloc_loop os s false numaNode size commit allowLarge reqArenaId
          (List.range maxArena)
      else (s, none)

/-! ## Adding and reserving arenas -/

/-- Translation of `mi_arena_add(arena, arena_id, stats)`: atomically
increment `mi_arena_count`; roll the increment back and fail if the
claimed slot is at or beyond `MI_MAX_ARENAS`; otherwise set the arena's
id to slot + 1 and publish it in the slot.  Returns the new registry and
the arena id on success. -/
def mi_arena_add (s : Registry) (arena : Arena) : Registry × Option Int :=
  let i := s.count
  let s1 := { s with count := s.count + 1 }
  if i ≥ MI_MAX_ARENAS then
    ({ s1 with count := s1.count - 1 }, none)
  else
    let arena2 := { arena with id := mi_arena_id_create i }
    ({ s1 with arenas := s1.arenas.set i (some arena2) }, some (mi_arena_id_create i))

/-- Translation of `mi_manage_os_memory_ex2(start, size, is_large,
numa_node, exclusive, memid, arena_id)`.  The arena metadata allocation
(`mi_arena_meta_zalloc`) is abstracted by the oracle field
`os.metaAllocOk`. -/
def mi_manage_os_memory_ex2 (os : OS) (s : Registry) (start size : Nat) (isLarge : Bool)
    (numaNode : Int) (exclusive : Bool) (memid : Memid) : Registry × Option Int :=
  if size < MI_ARENA_BLOCK_SIZE then (s, none)
  else
    let bcount := size / MI_ARENA_BLOCK_SIZE
    let fields := _mi_divide_up bcount MI_BITMAP_FIELD_BITS
    if !os.metaAllocOk then (s, none)
    else
      -- claim leftover blocks at the end so we never allocate there
      let post := fields * MI_BITMAP_FIELD_BITS - bcount
      let inuse0 : Nat := 0
      let inuse1 := if post > 0 then
          bmSetRange inuse0 post
            (mi_bitmap_index_create (fields - 1) (MI_BITMAP_FIELD_BITS - post))
        else inuse0
      let committed0 : Option Nat :=
        if memid.isPinned then none
        else some (if memid.initiallyCommitted then bmMask (fields * MI_BITMAP_FIELD_BITS) 0 else 0)
      let purge0 : Option Nat := if memid.isPinned then none else some 0
      let arena : Arena :=
        { id := _mi_arena_id_none
          memid := memid
          start := start
          blockCount := bcount
          fieldCount := fields
          numaNode := numaNode
          exclusive := exclusive
          isLarge := isLarge
          searchIdx := 0
          purgeExpire := 0
          dirty := 0
          committed := committed0
          purge := purge0
          abandoned := 0
          inuse := inuse1 }
      mi_arena_add s arena

/-- Translation of `mi_reserve_os_memory_ex(size, commit, allow_large,
exclusive, arena_id)`.  The OS allocation `_mi_os_alloc_aligned` is
abstracted by the `reserveOsAlloc*` oracle fields. -/
def mi_reserve_os_memory_ex (os : OS) (s : Registry) (size : Nat)
    (commit allowLarge exclusive : Bool) : Registry × Option Int :=
  let size2 := _mi_align_up size MI_ARENA_BLOCK_SIZE
  if !os.reserveOsAllocOk then (s, none)
  else
    let memid : Memid :=
      { kind := MemKind.os
        arenaId := 0
        blockIndex := 0
        isExclusive := false
        initiallyZero := os.reserveOsAllocZero
        initiallyCommitted := commit
        isPinned := os.reserveOsAllocPinned }
    let isLarge := memid.isPinned
    mi_manage_os_memory_ex2 os s os.reserveOsAllocAddr size2 isLarge (-1) exclusive memid

/-- Translation of `mi_arena_reserve(req_size, allow_large, req_arena_id,
arena_id)`.  On success also returns the computed reservation target size
(the `arena_reserve` value actually passed to `mi_reserve_os_memory_ex`). -/
def mi_arena_reserve (os : OS) (opts : Opts) (s : Registry) (reqSize : Nat)
    (allowLarge : Bool) (reqArenaId : Int) : Registry × Option (Int × Nat) :=
  if os.preloading then (s, none)
  else if reqArenaId != _mi_arena_id_none then (s, none)
  else
    let arenaCount := s.count
    if arenaCount > MI_MAX_ARENAS - 4 then (s, none)
    else
      let r0 := opts.arenaReserve
      if r0 == 0 then (s, none)
      else
        let r1 := if !os.hasVirtualReserve then r0 / 4 else r0
        let r2 := _mi_align_up r1 MI_ARENA_BLOCK_SIZE
        let r3 := if arenaCount ≥ 8 && arenaCount ≤ 128 then 2 ^ (arenaCount / 8) * r2 else r2
        if r3 < reqSize then (s, none)
        else
          let arenaCommit :=
            if opts.arenaEagerCommit == 2 then os.hasOvercommit
            else opts.arenaEagerCommit == 1
          match mi_reserve_os_memory_ex os s r3 arenaCommit allowLarge false with
          | (s2, some arenaId) => (s2, some (arenaId, r3))
          | (s2, Option.none) => (s2, none)

/-! ## Top-level aligned allocation -/

/-- Memid built by the OS fallback `_mi_os_alloc_aligned` (spec section
6.2: the OS path tags the result `Os` and records commit/zero/pinned). -/
def osAllocMemid (os : OS) (commit : Bool) : Memid :=
  { kind := MemKind.os
    arenaId := 0
    blockIndex := 0
    isExclusive := false
    initiallyZero := os.osAllocZero
    initiallyCommitted := commit
    isPinned := os.osAllocPinned }

/-- Translation of `_mi_arena_alloc_aligned(size, alignment, align_offset,
commit, allow_large, req_arena_id, memid, tld)`.  Returns the registry and
`some (memid, ptr)` on success, `none` when the allocation fails
(`NULL` / `ENOMEM`). -/
def _mi_arena_alloc_aligned (os : OS) (opts : Opts) (s : Registry)
    (size alignment alignOffset : Nat) (commit allowLarge : Bool) (reqArenaId : Int) :
    Registry × Option (Memid × Nat) :=
  let numaNode := os.numaNode
  let arenaPhase : Registry × Option (Memid × Nat) :=
    if (!opts.disallowArenaAlloc || reqArenaId != _mi_arena_id_none) &&
       (size ≥ MI_ARENA_MIN_OBJ_SIZE && alignment ≤ MI_SEGMENT_ALIGN && alignOffset == 0) then
      match mi_arena_try_alloc os s numaNode size commit allowLarge reqArenaId with
      | (s1, some r) => (s1, some r)
      | (s1, Option.none) =>
        -- otherwise, try to first eagerly reserve a new arena
        if reqArenaId == _mi_arena_id_none then
          match mi_arena_reserve os opts s1 size allowLarge reqArenaId with
          | (s2, some (arenaId, _)) =>
              -- and try allocate in there
              mi_arena_try_alloc_at_id os s2 arenaId true numaNode size commit allowLarge
                reqArenaId
          | (s2, Option.none) => (s2, none)
        else (s1, none)
    else (s, none)
  match arenaPhase with
  | (s1, some r) => (s1, some r)
  | (s1, Option.none) =>
    -- if we cannot use OS allocation, return NULL (errno = ENOMEM)
    if opts.disallowOsAlloc || reqArenaId != _mi_arena_id_none then (s1, none)
    else
      -- finally, fall back to the OS
      if os.osAllocOk then (s1, some (osAllocMemid os commit, os.osAllocAddr))
      else (s1, none)

/-! ## Purge engine -/

/-- Translation of `mi_arena_purge_delay()`. -/
def mi_arena_purge_delay (opts : Opts) : Int := opts.purgeDelay * opts.arenaPurgeMult

/-- Translation of `mi_arena_purge(arena, bitmap_idx, blocks, stats)`:
reset or decommit an owned range; clear its `purge` bits and, when the OS
purge demands a recommit, clear its `committed` bits.  The two OS purge
primitives are abstracted by the oracle field `os.purgeNeedsRecommit`.
The function asserts `blocks_committed`/`blocks_purge` non-`NULL`; on the
(unreachable) `none` case the arena is returned unchanged. -/
def mi_arena_purge (os : OS) (a : Arena) (bitmapIdx blocks : Nat) : Arena :=
  match a.committed, a.purge with
  | some c, some pu =>
    let needsRecommit := os.purgeNeedsRecommit
    let pu2 := bmClearRange pu blocks bitmapIdx
    let c2 := if needsRecommit then bmClearRange c blocks bitmapIdx else c
    { a with purge := some pu2, committed := some c2 }
  | _, _ => a

/-- Claim a purge range when the purge bitmap exists (in the source the
bitmap is asserted non-`NULL` at this point; `none` stays `none`). -/
def purgeSet (purge : Option Nat) (n idx : Nat) : Option Nat :=
  match purge with
  | Option.none => none
  | some pu => some (bmSetRange pu n idx)

/-- Translation of `mi_arena_schedule_purge(arena, bitmap_idx, blocks,
stats)`: purge immediately when preloading or the delay is zero; otherwise
set or extend `purge_expire` and mark the range in the `purge` bitmap. -/
def mi_arena_schedule_purge (os : OS) (opts : Opts) (a : Arena) (bitmapIdx blocks : Nat) :
    Arena :=
  let delay := mi_arena_purge_delay opts
  if delay < 0 then a
  else if os.preloading || delay == 0 then
    mi_arena_purge os a bitmapIdx blocks
  else
    let newExpire := if a.purgeExpire != 0 then a.purgeExpire + delay / 10
                     else os.clockNow + delay
    { a with purgeExpire := newExpire, purge := purgeSet a.purge blocks bitmapIdx }

/-- Number of consecutive set bits of `mask` starting at `bitidx`,
looking at most `fuel` bits ahead (the run scan of the purge loops). -/
def countRun (mask bitidx fuel : Nat) : Nat :=
  match fuel with
  | 0 => 0
  | f + 1 => if mask.testBit bitidx then countRun mask (bitidx + 1) f + 1 else 0

/-- Inner loop of `mi_arena_purge_range(arena, idx, startidx, bitlen,
purge, stats)`: walk maximal runs of set bits of the (stale) purge word
and purge each.  `fuel` bounds the loop (any value at least `endidx`
gives the source behaviour). -/
def mi_arena_purge_range_go (os : OS) (a : Arena) (idx endidx purgeMask bitlenFull : Nat)
    (bitidx : Nat) (allPurged : Bool) (fuel : Nat) : Arena × Bool :=
  match fuel with
  | 0 => (a, allPurged)
  | f + 1 =>
    if bitidx < endidx then
      let count := countRun purgeMask bitidx (endidx - bitidx)
      let a2 := if count > 0 then mi_arena_purge os a (mi_bitmap_index_create idx bitidx) count
                else a
      let allPurged2 := allPurged || (count > 0 && count == bitlenFull)
      mi_arena_purge_range_go os a2 idx endidx purgeMask bitlenFull (bitidx + count + 1)
        allPurged2 f
    else (a, allPurged)

/-- Translation of `mi_arena_purge_range(arena, idx, startidx, bitlen,
purge, stats)`. -/
def mi_arena_purge_range (os : OS) (a : Arena) (idx startidx bitlen purgeMask : Nat) :
    Arena × Bool :=
  mi_arena_purge_range_go os a idx (startidx + bitlen) purgeMask bitlen startidx false
    (startidx + bitlen + 1)

/-- Shrinking re-acquision of `inuse` over a purge run (the
`while (bitlen > 0) ... _mi_bitmap_try_claim ... bitlen--` loop of
`mi_arena_try_purge`). -/
def tryClaimShrink (a : Arena) (bitlen bitmapIndex : Nat) : Arena × Nat :=
  match bitlen with
  | 0 => (a, 0)
  | b + 1 =>
    match bmTryClaim a.inuse (b + 1) bitmapIndex with
    | some inuse2 => ({ a with inuse := inuse2 }, b + 1)
    | Option.none => tryClaimShrink a b bitmapIndex

/-- Inner per-field loop of `mi_arena_try_purge`: find runs of purge bits,
re-acquire `inuse` over (a prefix of) each run, purge it, and release
`inuse` again.  `purgeVar` is the local copy of the purge word, re-read
after each successful claim, exactly as in the source.  `fuel` bounds the
loop (any value at least `MI_BITMAP_FIELD_BITS` gives the source
behaviour). -/
def mi_arena_try_purge_field_go (os : OS) (a : Arena) (i purgeVar bitidx : Nat)
    (anyPurged fullPurge : Bool) (fuel : Nat) : Arena × Bool × Bool :=
  match fuel with
  | 0 => (a, anyPurged, fullPurge)
  | f + 1 =>
    if bitidx < MI_BITMAP_FIELD_BITS then
      let bitlen0 := countRun purgeVar bitidx (MI_BITMAP_FIELD_BITS - bitidx)
      let bitmapIndex := mi_bitmap_index_create i bitidx
      let (a1, bitlen) := tryClaimShrink a bitlen0 bitmapIndex
      if bitlen > 0 then
        -- read purge again now that we own the in_use bits
        let purgeVar2 := bmField (a1.purge.getD 0) i
        let (a2, fullRange) := mi_arena_purge_range os a1 i bitidx bitlen purgeVar2
        let fullPurge2 := fullPurge && fullRange
        -- release the claimed in_use bits again
        let a3 := { a2 with inuse := bmClearRange a2.inuse bitlen bitmapIndex }
        mi_arena_try_purge_field_go os a3 i purgeVar2 (bitidx + bitlen + 1) true fullPurge2 f
      else
        mi_arena_try_purge_field_go os a1 i purgeVar (bitidx + bitlen + 1) anyPurged fullPurge f
    else (a, anyPurged, fullPurge)

/-- Field loop of `mi_arena_try_purge`: visit each bitmap field, skipping
fields whose purge word is zero. -/
def mi_arena_try_purge_fields (os : OS) (a : Arena) :
    List Nat → Arena × Bool × Bool
  | [] => (a, false, true)
  | i :: is =>
    let purgeVar := bmField (a.purge.getD 0) i
    if purgeVar != 0 then
      match mi_arena_try_purge_field_go os a i purgeVar 0 false true
          (MI_BITMAP_FIELD_BITS + 1) with
      | (a1, any1, full1) =>
        match mi_arena_try_purge_fields os a1 is with
        | (a2, any2, full2) => (a2, any1 || any2, full1 && full2)
    else mi_arena_try_purge_fields os a is

/-- Translation of `mi_arena_try_purge(arena, now, force, stats)`. -/
def mi_arena_try_purge (os : OS) (opts : Opts) (a : Arena) (now : Int) (force : Bool) :
    Arena × Bool :=
  if a.memid.isPinned || a.purge == none then (a, false)
  else
    let expire := a.purgeExpire
    if expire == 0 then (a, false)
    else if !force && expire > now then (a, false)
    else
      -- reset expire (the CAS succeeds in the sequential model)
      let a0 := { a with purgeExpire := 0 }
      match mi_arena_try_purge_fields os a0 (List.range a0.fieldCount) with
      | (a1, anyPurged, fullPurge) =>
        let a2 :=
          if !fullPurge then
            if a1.purgeExpire == 0 then
              { a1 with purgeExpire := os.clockNow + mi_arena_purge_delay opts }
            else a1
          else a1
        (a2, anyPurged)

/-- Registry loop of `mi_arenas_try_purge`, with the purge budget
(`max_purge_count`). -/
def mi_arenas_try_purge_go (os : OS) (opts : Opts) (s : Registry) (now : Int) (force : Bool)
    (budget : Nat) : List Nat → Registry
  | [] => s
  | i :: is =>
    match s.arenas.getD i none with
    | Option.none => mi_arenas_try_purge_go os opts s now force budget is
    | some a =>
      match mi_arena_try_purge os opts a now force with
      | (a2, purged) =>
        let s2 := { s with arenas := s.arenas.set i (some a2) }
        if purged then
          if budget ≤ 1 then s2
          else mi_arenas_try_purge_go os opts s2 now force (budget - 1) is
        else mi_arenas_try_purge_go os opts s2 now force budget is

/-- Translation of `mi_arenas_try_purge(force, visit_all, stats)`.  The
single-writer guard always succeeds in the sequential model. -/
def mi_arenas_try_purge (os : OS) (opts : Opts) (s : Registry) (force visitAll : Bool) :
    Registry :=
  if os.preloading || mi_arena_purge_delay opts ≤ 0 then s
  else
    let maxArena := s.count
    if maxArena == 0 then s
    else
      let now := os.clockNow
      let maxPurgeCount := if visitAll then maxArena else 1
      mi_arenas_try_purge_go os opts s now force maxPurgeCount (List.range maxArena)

/-! ## Freeing -/

/-- Outcome of `_mi_arena_free`.  `outOfBounds` marks the unguarded read
`mi_arenas[arena_idx]` with `arena_idx ≥ MI_MAX_ARENAS` — an
out-of-bounds access of the registry array (undefined behaviour in the
source, which only asserts the bound in debug builds). -/
inductive FreeOutcome where
  | earlyReturn (s : Registry)
  | osFreed (s : Registry)
  | freed (s : Registry)
  | invalidArena (s : Registry)
  | invalidBlock (s : Registry)
  | doubleFree (s : Registry)
  | outOfBounds (arenaIdx : Nat)
  | otherKind (s : Registry)
deriving DecidableEq, Repr

/-- Registry carried by a free outcome; `dflt` stands in for the
(undefined) state after an out-of-bounds access. -/
def FreeOutcome.stateD (o : FreeOutcome) (dflt : Registry) : Registry :=
  match o with
  | earlyReturn s => s
  | osFreed s => s
  | freed s => s
  | invalidArena s => s
  | invalidBlock s => s
  | doubleFree s => s
  | outOfBounds _ => dflt
  | otherKind s => s

/-- Arena branch of `_mi_arena_free` (after the registry slot has been
loaded): conservative decommit, purge scheduling, and the final unclaim of
the `inuse` run with double-free detection. -/
def mi_arena_free_at (os : OS) (opts : Opts) (s : Registry) (arenaIdx bitmapIdx size : Nat)
    (allCommitted : Bool) (arena : Arena) : FreeOutcome :=
  let blocks := mi_block_count_of_size size
  if arena.fieldCount ≤ mi_bitmap_index_field bitmapIdx then
    FreeOutcome.invalidBlock s
  else
    -- potentially decommit
    let arena1 :=
      if arena.memid.isPinned || arena.committed == none then arena
      else
        let arenaA :=
          if !allCommitted then
            -- mark the entire range as no longer committed
            { arena with
                committed := some (bmClearRange (arena.committed.getD 0) blocks bitmapIdx) }
          else arena
        -- (delay) purge the entire range
        mi_arena_schedule_purge os opts arenaA bitmapIdx blocks
    -- and make it available to others again
    match bmUnclaimAcross arena1.inuse blocks bitmapIdx with
    | (inuse2, allInuse) =>
      let arena2 := { arena1 with inuse := inuse2 }
      let s2 := { s with arenas := s.arenas.set arenaIdx (some arena2) }
      if !allInuse then FreeOutcome.doubleFree s2
      else FreeOutcome.freed (mi_arenas_try_purge os opts s2 false false)

/-- Translation of `_mi_arena_free(p, size, committed_size, memid, stats)`. -/
def _mi_arena_free (os : OS) (opts : Opts) (s : Registry) (p size committedSize : Nat)
    (memid : Memid) : FreeOutcome :=
  if p == 0 then FreeOutcome.earlyReturn s
  else if size == 0 then FreeOutcome.earlyReturn s
  else
    let allCommitted := committedSize == size
    if memid.kind == MemKind.os then
      -- direct OS allocation: pass through to _mi_os_free, then purge sweep
      FreeOutcome.osFreed (mi_arenas_try_purge os opts s false false)
    else if memid.kind == MemKind.arena then
      let arenaIdx := mi_arena_id_index memid.arenaId
      if arenaIdx ≥ MI_MAX_ARENAS then FreeOutcome.outOfBounds arenaIdx
      else
        match s.arenas.getD arenaIdx none with
        | Option.none => FreeOutcome.invalidArena s
        | some arena =>
          mi_arena_free_at os opts s arenaIdx memid.blockIndex size allCommitted arena
    else
      -- arena was none, external, or static; nothing to do
      FreeOutcome.otherKind (mi_arenas_try_purge os opts s false false)

/-! ## Well-formedness and invariant predicates -/

/-- Registry slot ids are slot index + 1 (`mi_arena_add` establishes
this for every published arena). -/
def wfIds (l : List (Option Arena)) : Bool :=
  (List.range l.length).all fun i =>
    match l.getD i none with
    | some a => a.id == mi_arena_id_create i
    | Option.none => true

/-- Tail blocks at or beyond `block_count` are marked in-use (invariant
`I7` of the spec). -/
def tailReserved (a : Arena) : Bool :=
  (List.range (MI_BITMAP_FIELD_BITS * a.fieldCount)).all fun b =>
    decide (b < a.blockCount) || a.inuse.testBit b

/-- Invariant `I1` of the spec on one arena: every block scheduled for a
purge is not in use. -/
def invI1 (a : Arena) : Bool :=
  (List.range (MI_BITMAP_FIELD_BITS * a.fieldCount)).all fun b =>
    !(a.purge.getD 0).testBit b || !a.inuse.testBit b

/-- Invariant `I1` over every arena of the registry. -/
def regInvI1 (s : Registry) : Bool :=
  s.arenas.all fun oa =>
    match oa with
    | some a => invI1 a
    | Option.none => true

theorem wfIds_getD {l : List (Option Arena)} {i : Nat} {a : Arena}
    (hwf : wfIds l = true) (h : l.getD i none = some a) : a.id = mi_arena_id_create i := by
  by_cases hi : i < l.length
  · have := (List.all_eq_true.mp hwf) i (List.mem_range.mpr hi)
    rw [h] at this
    simpa using this
  · rw [List.getD_eq_getElem?_getD, List.getElem?_eq_none (by omega)] at h
    simp at h

theorem tailReserved_iff (a : Arena) :
    tailReserved a = true ↔
      ∀ b, a.blockCount ≤ b → b < MI_BITMAP_FIELD_BITS * a.fieldCount →
        a.inuse.testBit b = true := by
  unfold tailReserved
  rw [List.all_eq_true]
  constructor
  · intro h b h1 h2
    have := h b (List.mem_range.mpr h2)
    rcases Bool.or_eq_true_iff.mp this with hlt | hbit
    · exact absurd (of_decide_eq_true hlt) (by omega)
    · exact hbit
  · intro h b hb
    by_cases h1 : b < a.blockCount
    · simp [h1]
    · simp [h b (by omega) (List.mem_range.mp hb)]

theorem invI1_iff (a : Arena) :
    invI1 a = true ↔
      ∀ b, b < MI_BITMAP_FIELD_BITS * a.fieldCount →
        (a.purge.getD 0).testBit b = true → a.inuse.testBit b = false := by
  unfold invI1
  rw [List.all_eq_true]
  constructor
  · intro h b hb hp
    have := h b (List.mem_range.mpr hb)
    rw [hp] at this
    simpa using this
  · intro h b hb
    by_cases hp : (a.purge.getD 0).testBit b
    · simp [hp, h b (List.mem_range.mp hb) hp]
    · simp [hp]

/-! ## Helper lemmas on `_mi_align_up` -/

theorem align_up_mod (x a : Nat) : _mi_align_up x a % a = 0 := by
  unfold _mi_align_up
  exact Nat.mul_mod_left _ a

theorem align_up_le (x a : Nat) : _mi_align_up x a ≤ x + a - 1 :=
  Nat.div_mul_le_self (x + a - 1) a

theorem align_up_ge (x a : Nat) (h : 0 < a) : x ≤ _mi_align_up x a := by
  unfold _mi_align_up
  rw [Nat.mul_comm]
  obtain ⟨q, hq⟩ : ∃ q, (x + a - 1) / a = q := ⟨_, rfl⟩
  have h1 := Nat.div_add_mod (x + a - 1) a
  have h2 := Nat.mod_lt (x + a - 1) h
  obtain ⟨r, hr⟩ : ∃ r, (x + a - 1) % a = r := ⟨_, rfl⟩
  rw [hq, hr] at h1
  rw [hr] at h2
  rw [hq]
  obtain ⟨t, ht⟩ : ∃ t, a * q = t := ⟨_, rfl⟩
  rw [ht] at h1 ⊢
  omega

theorem align_up_dvd (x a : Nat) : a ∣ _mi_align_up x a :=
  Nat.dvd_of_mod_eq_zero (align_up_mod x a)

/-! ## C10: discipline of the static meta-arena -/

/-- C10.  Every successful `mi_arena_static_zalloc(size, alignment)`
returns an offset into the static buffer aligned to at least
`max(alignment, MI_MAX_ALIGN_SIZE)` whose first `size` bytes are zero and
whose range lies inside the `MI_ARENA_STATIC_MAX`-byte buffer; successive
successful calls return disjoint ranges; calls with `size = 0` or
`size > MI_ARENA_STATIC_MAX` return `NULL` with a `None` memid. -/
theorem C10_static_meta_arena :
    (∀ st size alignment, size = 0 ∨ size > MI_ARENA_STATIC_MAX →
        mi_arena_static_zalloc st size alignment = (st, none)) ∧
    (∀ st size alignment st2 start m,
        mi_arena_static_zalloc st size alignment = (st2, some (start, m)) →
        start % (max alignment MI_MAX_ALIGN_SIZE) = 0 ∧
        start + size ≤ MI_ARENA_STATIC_MAX ∧
        (∀ b, start ≤ b → b < start + size → st2.buf b = 0) ∧
        st.top ≤ start ∧ start + size ≤ st2.top ∧ st.top < st2.top ∧
        m = { _mi_memid_create MemKind.static with initiallyZero := true }) ∧
    (∀ st size1 al1 st1 p1 m1 size2 al2 st2 p2 m2,
        mi_arena_static_zalloc st size1 al1 = (st1, some (p1, m1)) →
        mi_arena_static_zalloc st1 size2 al2 = (st2, some (p2, m2)) →
        p1 + size1 ≤ p2) := by
  have key : ∀ st size alignment st2 start m,
      mi_arena_static_zalloc st size alignment = (st2, some (start, m)) →
      start % (max alignment MI_MAX_ALIGN_SIZE) = 0 ∧
      start + size ≤ MI_ARENA_STATIC_MAX ∧
      (∀ b, start ≤ b → b < start + size → st2.buf b = 0) ∧
      st.top ≤ start ∧ start + size ≤ st2.top ∧ st.top < st2.top ∧
      m = { _mi_memid_create MemKind.static with initiallyZero := true } := by
    intro st size alignment st2 start m h
    simp only [mi_arena_static_zalloc] at h
    split at h
    · simp at h
    · rename_i h1
      split at h
      · simp at h
      · rename_i h2
        obtain ⟨A, hA⟩ : ∃ A,
            (if alignment < MI_MAX_ALIGN_SIZE then MI_MAX_ALIGN_SIZE else alignment) = A :=
          ⟨_, rfl⟩
        rw [hA] at h
        split at h
        · simp at h
        · rename_i h3
          simp only [Bool.or_eq_true, beq_iff_eq, decide_eq_true_eq, not_or,
            Bool.not_eq_true] at h1
          simp only [gt_iff_lt, Nat.not_lt] at h2 h3
          rw [Prod.mk.injEq] at h
          rcases h with ⟨hst2, hsome⟩
          rw [Option.some.injEq, Prod.mk.injEq] at hsome
          rcases hsome with ⟨hstart, hm⟩
          have hsz : size ≠ 0 := by
            intro hz
            rw [hz] at h1
            simp at h1
          have h16 : (MI_MAX_ALIGN_SIZE : Nat) = 16 := rfl
          have hAmax : A = max alignment MI_MAX_ALIGN_SIZE := by
            rw [← hA]
            split <;> omega
          have hApos : 0 < A := by omega
          have hge := align_up_ge st.top A hApos
          have hle := align_up_le st.top A
          refine ⟨?_, ?_, ?_, ?_, ?_, ?_, hm.symm⟩
          · rw [← hstart, ← hAmax]
            exact align_up_mod st.top A
          · omega
          · intro b hb1 hb2
            rw [← hst2]
            simp only
            rw [hstart, if_pos ⟨hb1, hb2⟩]
          · omega
          · rw [← hst2]
            simp only
            omega
          · rw [← hst2]
            simp only
            omega
  refine ⟨?_, key, ?_⟩
  · intro st size alignment h
    unfold mi_arena_static_zalloc
    rcases h with h | h
    · simp [h, MI_ARENA_STATIC_MAX]
    · rw [if_pos (by simp; omega)]
  · intro st size1 al1 st1 p1 m1 size2 al2 st2 p2 m2 hc1 hc2
    have k1 := key st size1 al1 st1 p1 m1 hc1
    have k2 := key st1 size2 al2 st2 p2 m2 hc2
    omega

/-- Witness for C10: a concrete pair of successive successful calls and a
concrete rejected zero-size call. -/
theorem C10_static_meta_arena_witness :
    ((0 : Nat) = 0 ∨ (0 : Nat) > MI_ARENA_STATIC_MAX) ∧
    mi_arena_static_zalloc ⟨0, fun _ => 1⟩ 32 8
        = (⟨47, fun b => if _mi_align_up 0 16 ≤ b ∧ b < _mi_align_up 0 16 + 32 then 0
              else (fun _ => (1 : Nat)) b⟩,
           some (_mi_align_up 0 16,
             { _mi_memid_create MemKind.static with initiallyZero := true })) ∧
    mi_arena_static_zalloc ⟨0, fun _ => 1⟩ 0 8 = (⟨0, fun _ => 1⟩, none) ∧
    (_mi_align_up 0 16 % max 8 MI_MAX_ALIGN_SIZE = 0 ∧
     _mi_align_up 0 16 + 32 ≤ MI_ARENA_STATIC_MAX ∧
     (∀ b, _mi_align_up 0 16 ≤ b → b < _mi_align_up 0 16 + 32 →
        (⟨47, fun b => if _mi_align_up 0 16 ≤ b ∧ b < _mi_align_up 0 16 + 32 then 0
            else (fun _ => (1 : Nat)) b⟩ : StaticArena).buf b = 0) ∧
     (⟨0, fun _ => (1 : Nat)⟩ : StaticArena).top ≤ _mi_align_up 0 16 ∧
     _mi_align_up 0 16 + 32 ≤ (47 : Nat) ∧
     (⟨0, fun _ => (1 : Nat)⟩ : StaticArena).top < (47 : Nat) ∧
     ({ _mi_memid_create MemKind.static with initiallyZero := true } : Memid)
        = { _mi_memid_create MemKind.static with initiallyZero := true }) := by
  have hcall : mi_arena_static_zalloc ⟨0, fun _ => 1⟩ 32 8
      = (⟨47, fun b => if _mi_align_up 0 16 ≤ b ∧ b < _mi_align_up 0 16 + 32 then 0
            else (fun _ => (1 : Nat)) b⟩,
         some (_mi_align_up 0 16,
           { _mi_memid_create MemKind.static with initiallyZero := true })) := rfl
  refine ⟨Or.inl rfl, hcall, C10_static_meta_arena.1 ⟨0, fun _ => 1⟩ 0 8 (Or.inl rfl), ?_⟩
  exact C10_static_meta_arena.2.1 ⟨0, fun _ => 1⟩ 32 8 _ _ _ hcall

/-! ## C7: registry growth -/

/-- C7.  `mi_arena_add` grows the registry by incrementing `arena_count`;
a claimed slot at or beyond `MI_MAX_ARENAS` is rolled back by a decrement
and the call fails with the registry unchanged; otherwise the arena is
stored at the claimed slot with `id = slot + 1` and the call succeeds. -/
theorem C7_registry_growth (s : Registry) (arena : Arena) :
    (s.count ≥ MI_MAX_ARENAS → mi_arena_add s arena = (s, none)) ∧
    (s.count < MI_MAX_ARENAS →
       (mi_arena_add s arena).2 = some (mi_arena_id_create s.count) ∧
       (mi_arena_add s arena).1.count = s.count + 1 ∧
       (s.count < s.arenas.length →
         (mi_arena_add s arena).1.arenas.getD s.count none
           = some { arena with id := mi_arena_id_create s.count }) ∧
       (∀ j, j ≠ s.count →
         (mi_arena_add s arena).1.arenas.getD j none = s.arenas.getD j none)) := by
  constructor
  · intro h
    simp only [mi_arena_add]
    rw [if_pos h]
    rfl
  · intro h
    simp only [mi_arena_add]
    rw [if_neg (by omega)]
    refine ⟨rfl, rfl, ?_, ?_⟩
    · intro hlen
      simp only
      rw [List.getD_eq_getElem?_getD, List.getElem?_set_self (by simpa using hlen)]
      rfl
    · intro j hj
      simp only
      rw [List.getD_eq_getElem?_getD, List.getElem?_set_ne (by omega),
        ← List.getD_eq_getElem?_getD]

/-- Witness for C7: a concrete rollback call and a concrete successful call. -/
theorem C7_registry_growth_witness :
    ((⟨MI_MAX_ARENAS, []⟩ : Registry).count ≥ MI_MAX_ARENAS →
        mi_arena_add ⟨MI_MAX_ARENAS, []⟩
            ⟨0, _mi_memid_none, 0, 1, 1, 0, false, false, 0, 0, 0, some 0, some 0, 0, 0⟩
          = (⟨MI_MAX_ARENAS, []⟩, none)) ∧
    ((⟨MI_MAX_ARENAS, []⟩ : Registry).count ≥ MI_MAX_ARENAS) ∧
    ((⟨0, [none]⟩ : Registry).count < MI_MAX_ARENAS) ∧
    ((⟨0, [none]⟩ : Registry).count < MI_MAX_ARENAS →
       (mi_arena_add ⟨0, [none]⟩
           ⟨0, _mi_memid_none, 0, 1, 1, 0, false, false, 0, 0, 0, some 0, some 0, 0, 0⟩).2
         = some (mi_arena_id_create 0) ∧
       (mi_arena_add ⟨0, [none]⟩
           ⟨0, _mi_memid_none, 0, 1, 1, 0, false, false, 0, 0, 0, some 0, some 0, 0, 0⟩).1.count
         = 0 + 1 ∧
       ((0 : Nat) < ([none] : List (Option Arena)).length →
         (mi_arena_add ⟨0, [none]⟩
             ⟨0, _mi_memid_none, 0, 1, 1, 0, false, false, 0, 0, 0, some 0, some 0, 0, 0⟩).1.arenas.getD
             0 none
           = some { (⟨0, _mi_memid_none, 0, 1, 1, 0, false, false, 0, 0, 0, some 0, some 0, 0,
               0⟩ : Arena) with id := mi_arena_id_create 0 }) ∧
       (∀ j, j ≠ (0 : Nat) →
         (mi_arena_add ⟨0, [none]⟩
             ⟨0, _mi_memid_none, 0, 1, 1, 0, false, false, 0, 0, 0, some 0, some 0, 0,
               0⟩).1.arenas.getD j none
           = ([none] : List (Option Arena)).getD j none)) :=
  ⟨(C7_registry_growth ⟨MI_MAX_ARENAS, []⟩ _).1, by decide, by decide,
   (C7_registry_growth ⟨0, [none]⟩ _).2⟩

/-! ## Chain lemmas for arena creation -/

theorem mi_arena_add_some {s : Registry} {arena : Arena} {s2 : Registry} {id : Int}
    (h : mi_arena_add s arena = (s2, some id)) :
    s2.count = s.count + 1 ∧ id = mi_arena_id_create s.count ∧ s.count < MI_MAX_ARENAS ∧
    s2.arenas = s.arenas.set s.count (some { arena with id := mi_arena_id_create s.count }) := by
  simp only [mi_arena_add] at h
  split at h
  · simp at h
  · rename_i hlt
    rw [Prod.mk.injEq, Option.some.injEq] at h
    rcases h with ⟨h1, h2⟩
    refine ⟨?_, h2.symm, by omega, ?_⟩
    · rw [← h1]
    · rw [← h1]

/-- Tail bits of the freshly initialized inuse bitmap (the `post` claim in
`mi_manage_os_memory_ex2`) are all set between `bcount` and the end of the
last field. -/
theorem tail_bits_set (bcount fields : Nat)
    (hf : fields = _mi_divide_up bcount MI_BITMAP_FIELD_BITS) (hbc1 : 1 ≤ bcount)
    (b : Nat) (hb1 : bcount ≤ b) (hb2 : b < MI_BITMAP_FIELD_BITS * fields) :
    (if fields * MI_BITMAP_FIELD_BITS - bcount > 0 then
        bmSetRange 0 (fields * MI_BITMAP_FIELD_BITS - bcount)
          (mi_bitmap_index_create (fields - 1)
            (MI_BITMAP_FIELD_BITS - (fields * MI_BITMAP_FIELD_BITS - bcount)))
      else (0 : Nat)).testBit b = true := by
  have hg := align_up_ge bcount MI_BITMAP_FIELD_BITS (by decide)
  have hl := align_up_le bcount MI_BITMAP_FIELD_BITS
  have he : _mi_align_up bcount MI_BITMAP_FIELD_BITS
      = _mi_divide_up bcount MI_BITMAP_FIELD_BITS * MI_BITMAP_FIELD_BITS := rfl
  rw [he, ← hf] at hg hl
  simp only [MI_BITMAP_FIELD_BITS, mi_bitmap_index_create] at hg hl hb2 ⊢
  have hpost : fields * 64 - bcount > 0 := by omega
  rw [if_pos hpost, testBit_bmSetRange]
  simp only [Nat.zero_testBit, Bool.false_or, Bool.and_eq_true, decide_eq_true_eq]
  omega

/-- Creation lemma: a successful `mi_manage_os_memory_ex2` appends one
arena whose exclusive flag is the `exclusive` argument, whose id is
`count + 1`, and whose inuse bitmap has every tail bit (at or beyond
`block_count`) set. -/
theorem mi_manage_os_memory_ex2_some {os : OS} {s : Registry} {start size : Nat}
    {isLarge : Bool} {numaNode : Int} {exclusive : Bool} {memid : Memid} {s2 : Registry}
    {id : Int}
    (h : mi_manage_os_memory_ex2 os s start size isLarge numaNode exclusive memid
          = (s2, some id)) :
    s2.count = s.count + 1 ∧ id = mi_arena_id_create s.count ∧ s.count < MI_MAX_ARENAS ∧
    MI_ARENA_BLOCK_SIZE ≤ size ∧
    ∃ arena : Arena, arena.exclusive = exclusive ∧ arena.id = id ∧
      arena.blockCount = size / MI_ARENA_BLOCK_SIZE ∧
      arena.fieldCount = _mi_divide_up (size / MI_ARENA_BLOCK_SIZE) MI_BITMAP_FIELD_BITS ∧
      (∀ b, arena.blockCount ≤ b → b < MI_BITMAP_FIELD_BITS * arena.fieldCount →
         arena.inuse.testBit b = true) ∧
      s2.arenas = s.arenas.set s.count (some arena) := by
  simp only [mi_manage_os_memory_ex2] at h
  split at h
  · simp at h
  · rename_i hsz
    split at h
    · simp at h
    · rename_i hmeta
      rcases mi_arena_add_some h with ⟨hc, hid, hmax, hset⟩
      have hsz2 : MI_ARENA_BLOCK_SIZE ≤ size := by
        simp only [Nat.not_lt] at hsz
        exact hsz
      refine ⟨hc, hid, hmax, hsz2, ?_⟩
      refine ⟨_, rfl, ?_, rfl, rfl, ?_, hset⟩
      · exact hid.symm
      · intro b hb1 hb2
        have hbc1 : 1 ≤ size / MI_ARENA_BLOCK_SIZE :=
          (Nat.one_le_div_iff (by decide)).mpr hsz2
        exact tail_bits_set (size / MI_ARENA_BLOCK_SIZE) _ rfl hbc1 b hb1 hb2

theorem mi_reserve_os_memory_ex_some {os : OS} {s : Registry} {size : Nat}
    {commit allowLarge exclusive : Bool} {s2 : Registry} {id : Int}
    (h : mi_reserve_os_memory_ex os s size commit allowLarge exclusive = (s2, some id)) :
    s2.count = s.count + 1 ∧ id = mi_arena_id_create s.count ∧
    ∃ arena : Arena, arena.exclusive = exclusive ∧ arena.id = id ∧
      s2.arenas = s.arenas.set s.count (some arena) := by
  unfold mi_reserve_os_memory_ex at h
  split at h
  · simp at h
  · rcases mi_manage_os_memory_ex2_some h with
      ⟨hc, hid, _, _, arena, hex, haid, _, _, _, hset⟩
    exact ⟨hc, hid, arena, hex, haid, hset⟩

/-! ## C6: reservation sizing -/

/-- C6.  `mi_arena_reserve` targets the configured default, divided by
four without OS virtual reservation, rounded up to the block size, scaled
by `2^(count/8)` for 8 ≤ count ≤ 128; and a reservation whose target is
below `req_size` is never performed: every reservation that proceeds has
`req_size ≤ target` (and reserves a new arena: the count grows by one). -/
theorem C6_reservation_sizing (os : OS) (opts : Opts) (s : Registry) (reqSize : Nat)
    (allowLarge : Bool) (reqArenaId : Int) (s2 : Registry) (arenaId : Int) (target : Nat)
    (h : mi_arena_reserve os opts s reqSize allowLarge reqArenaId
          = (s2, some (arenaId, target))) :
    target = (if 8 ≤ s.count ∧ s.count ≤ 128 then 2 ^ (s.count / 8) else 1) *
        _mi_align_up (if os.hasVirtualReserve then opts.arenaReserve else opts.arenaReserve / 4)
          MI_ARENA_BLOCK_SIZE ∧
    reqSize ≤ target ∧ target % MI_ARENA_BLOCK_SIZE = 0 ∧ s2.count = s.count + 1 := by
  simp only [mi_arena_reserve] at h
  split at h
  · simp at h
  · split at h
    · simp at h
    · split at h
      · simp at h
      · split at h
        · simp at h
        · rename_i hpre hreq hcnt hr0
          obtain ⟨r1, hr1⟩ : ∃ x,
              (if (!os.hasVirtualReserve) = true then opts.arenaReserve / 4
               else opts.arenaReserve) = x := ⟨_, rfl⟩
          rw [hr1] at h
          obtain ⟨r3, hr3⟩ : ∃ x,
              (if (decide (s.count ≥ 8) && decide (s.count ≤ 128)) = true then
                  2 ^ (s.count / 8) * _mi_align_up r1 MI_ARENA_BLOCK_SIZE
               else _mi_align_up r1 MI_ARENA_BLOCK_SIZE) = x := ⟨_, rfl⟩
          rw [hr3] at h
          split at h
          · simp at h
          · rename_i hge
            split at h
            · rename_i heq
              rw [Prod.mk.injEq, Option.some.injEq, Prod.mk.injEq] at h
              rcases h with ⟨hs2, hid, htarget⟩
              subst htarget
              have hform : r1 = if os.hasVirtualReserve then opts.arenaReserve
                  else opts.arenaReserve / 4 := by
                rw [← hr1]
                cases os.hasVirtualReserve <;> simp
              have hdvd : MI_ARENA_BLOCK_SIZE ∣ r3 := by
                rw [← hr3]
                split
                · exact Dvd.dvd.mul_left (align_up_dvd r1 MI_ARENA_BLOCK_SIZE) _
                · exact align_up_dvd r1 MI_ARENA_BLOCK_SIZE
              refine ⟨?_, by omega, ?_, ?_⟩
              · rw [← hr3, ← hform]
                by_cases hc : 8 ≤ s.count ∧ s.count ≤ 128
                · rw [if_pos (by simp [hc.1, hc.2]), if_pos hc]
                · rw [if_neg ?_, if_neg hc]
                  · rw [Nat.one_mul]
                  · simp only [Bool.and_eq_true, decide_eq_true_eq, ge_iff_le]
                    omega
              · obtain ⟨k, hk⟩ := hdvd
                rw [hk]
                exact Nat.mul_mod_right _ k
              · have := (mi_reserve_os_memory_ex_some heq).1
                rw [← hs2]
                omega
            · simp at h

/-- Concrete OS oracle used by witnesses. -/
def osW : OS :=
  ⟨false, true, false, 0, 1000, true, true, false, true, MI_ARENA_BLOCK_SIZE,
   true, false, false, true, true, false, 2 * MI_ARENA_BLOCK_SIZE⟩

/-- Concrete options record used by witnesses. -/
def optsW : Opts := ⟨MI_ARENA_BLOCK_SIZE, 0, 10, 1, true, false, false⟩

/-- The arena produced by the witness reservation of `C6`. -/
def arenaW : Arena :=
  ⟨1, ⟨MemKind.os, 0, 0, false, true, false, false⟩, MI_ARENA_BLOCK_SIZE, 1, 1, -1, false,
   false, 0, 0, 0, some 0, some 0, 0, 18446744073709551614⟩

/-- Witness for C6: a concrete reservation that proceeds. -/
theorem C6_reservation_sizing_witness :
    mi_arena_reserve osW optsW ⟨0, [none]⟩ MI_ARENA_BLOCK_SIZE false 0
        = (⟨1, [some arenaW]⟩, some (1, MI_ARENA_BLOCK_SIZE)) ∧
    (MI_ARENA_BLOCK_SIZE =
        (if 8 ≤ (⟨0, [none]⟩ : Registry).count ∧ (⟨0, [none]⟩ : Registry).count ≤ 128 then
            2 ^ ((⟨0, [none]⟩ : Registry).count / 8) else 1) *
          _mi_align_up (if osW.hasVirtualReserve then optsW.arenaReserve
            else optsW.arenaReserve / 4) MI_ARENA_BLOCK_SIZE ∧
     MI_ARENA_BLOCK_SIZE ≤ MI_ARENA_BLOCK_SIZE ∧
     MI_ARENA_BLOCK_SIZE % MI_ARENA_BLOCK_SIZE = 0 ∧
     (⟨1, [some arenaW]⟩ : Registry).count = (⟨0, [none]⟩ : Registry).count + 1) := by
  have hcall : mi_arena_reserve osW optsW ⟨0, [none]⟩ MI_ARENA_BLOCK_SIZE false 0
      = (⟨1, [some arenaW]⟩, some (1, MI_ARENA_BLOCK_SIZE)) := by rfl
  exact ⟨hcall, C6_reservation_sizing osW optsW ⟨0, [none]⟩ MI_ARENA_BLOCK_SIZE false 0
    _ _ _ hcall⟩

/-! ## C4: search cursor use in block claim -/

/-- Arena for the C4 counterexample: two fields, all blocks free, search
hint published at field 1. -/
def arenaC4 : Arena :=
  ⟨1, _mi_memid_none, 0, 128, 2, 0, false, false, 1, 0, 0, some 0, some 0, 0, 0⟩

/-- Counterexample to C4: `mi_arena_try_claim` does not search from the
`search_idx` hint (the load is commented out in the source; the search
starts at field 0).  With all 128 blocks free and `search_idx = 1`, the
code claims bit 0 while a hint-based search would claim bit 64. -/
theorem C4_counterexample :
    mi_arena_try_claim arenaC4 1 ≠ mi_arena_try_claim_spec arenaC4 1 := by decide

/-- C4 amended.  Block claim searches the inuse bitmap from field 0 — it
behaves exactly like the spec's hint-based claim with the hint pinned to 0
— and on success it publishes `search_idx` as the field of the claimed
run, which was entirely free and inside the bitmap. -/
theorem C4_search_cursor_amended (a : Arena) (blocks : Nat) :
    mi_arena_try_claim a blocks
        = mi_arena_try_claim_spec { a with searchIdx := 0 } blocks ∧
    (∀ a2 i, mi_arena_try_claim a blocks = some (a2, i) →
       a2.searchIdx = mi_bitmap_index_field i ∧
       bmAnySet a.inuse blocks i = false ∧
       i + blocks ≤ MI_BITMAP_FIELD_BITS * a.fieldCount ∧
       a2.inuse = bmSetRange a.inuse blocks i ∧
       a2.blockCount = a.blockCount ∧ a2.fieldCount = a.fieldCount) := by
  constructor
  · rfl
  · intro a2 i h
    unfold mi_arena_try_claim at h
    split at h
    · simp at h
    · rename_i bm2 p heq
      rw [Option.some.injEq, Prod.mk.injEq] at h
      rcases h with ⟨h1, h2⟩
      subst h2
      rcases bmTryFindClaimAcross_some heq with ⟨hbm, hany, hle⟩
      rw [← h1]
      exact ⟨rfl, hany, hle, by rw [hbm], rfl, rfl⟩

/-- Witness for the amended C4: a concrete successful claim. -/
theorem C4_search_cursor_amended_witness :
    mi_arena_try_claim arenaC4 1
        = some (⟨1, _mi_memid_none, 0, 128, 2, 0, false, false, 0, 0, 0, some 0, some 0, 0, 1⟩,
            0) ∧
    ((⟨1, _mi_memid_none, 0, 128, 2, 0, false, false, 0, 0, 0, some 0, some 0, 0,
        1⟩ : Arena).searchIdx = mi_bitmap_index_field 0 ∧
     bmAnySet arenaC4.inuse 1 0 = false ∧
     0 + 1 ≤ MI_BITMAP_FIELD_BITS * arenaC4.fieldCount ∧
     (⟨1, _mi_memid_none, 0, 128, 2, 0, false, false, 0, 0, 0, some 0, some 0, 0,
        1⟩ : Arena).inuse = bmSetRange arenaC4.inuse 1 0 ∧
     (⟨1, _mi_memid_none, 0, 128, 2, 0, false, false, 0, 0, 0, some 0, some 0, 0,
        1⟩ : Arena).blockCount = arenaC4.blockCount ∧
     (⟨1, _mi_memid_none, 0, 128, 2, 0, false, false, 0, 0, 0, some 0, some 0, 0,
        1⟩ : Arena).fieldCount = arenaC4.fieldCount) := by
  have hcall : mi_arena_try_claim arenaC4 1
      = some (⟨1, _mi_memid_none, 0, 128, 2, 0, false, false, 0, 0, 0, some 0, some 0, 0, 1⟩,
          0) := by decide
  exact ⟨hcall, (C4_search_cursor_amended arenaC4 1).2 _ 0 hcall⟩

/-! ## C1: exclusive respect -/

theorem mi_arena_try_alloc_at_memid {os : OS} {a : Arena} {needed : Nat} {commit : Bool}
    {a2 : Arena} {m : Memid} {p : Nat}
    (h : mi_arena_try_alloc_at os a needed commit = some (a2, m, p)) :
    m.kind = MemKind.arena ∧ m.arenaId = a.id ∧ m.isExclusive = a.exclusive := by
  simp only [mi_arena_try_alloc_at] at h
  split at h
  · simp at h
  · repeat' split at h
    all_goals
      rw [Option.some.injEq, Prod.mk.injEq] at h
      rcases h with ⟨h1, h2⟩
      rw [Prod.mk.injEq] at h2
      rcases h2 with ⟨h2, h3⟩
      subst h2
      exact ⟨rfl, rfl, rfl⟩

theorem mi_arena_try_alloc_at_id_none {os : OS} {s : Registry} {arenaId : Int}
    {matchNumaNode : Bool} {numaNode : Int} {size : Nat} {commit allowLarge : Bool}
    {reqArenaId : Int} {s2 : Registry}
    (h : mi_arena_try_alloc_at_id os s arenaId matchNumaNode numaNode size commit allowLarge
          reqArenaId = (s2, none)) : s2 = s := by
  simp only [mi_arena_try_alloc_at_id] at h
  split at h
  · rw [Prod.mk.injEq] at h
    exact h.1.symm
  · split at h
    · rw [Prod.mk.injEq] at h
      exact h.1.symm
    · split at h
      · rw [Prod.mk.injEq] at h
        exact h.1.symm
      · split at h
        · rw [Prod.mk.injEq] at h
          exact h.1.symm
        · split at h
          · rw [Prod.mk.injEq] at h
            exact h.1.symm
          · simp at h

theorem mi_arena_try_alloc_at_id_some {os : OS} {s : Registry} {arenaId : Int}
    {matchNumaNode : Bool} {numaNode : Int} {size : Nat} {commit allowLarge : Bool}
    {reqArenaId : Int} {s2 : Registry} {m : Memid} {p : Nat}
    (h : mi_arena_try_alloc_at_id os s arenaId matchNumaNode numaNode size commit allowLarge
          reqArenaId = (s2, some (m, p))) :
    ∃ a, s.arenas.getD (mi_arena_id_index arenaId) none = some a ∧
      mi_arena_id_is_suitable a.id a.exclusive reqArenaId = true ∧
      m.kind = MemKind.arena ∧ m.arenaId = a.id ∧ m.isExclusive = a.exclusive := by
  simp only [mi_arena_try_alloc_at_id] at h
  split at h
  · simp at h
  · rename_i a hget
    split at h
    · simp at h
    · split at h
      · simp at h
      · split at h
        · simp at h
        · rename_i hlarge hsuit hnuma
          split at h
          · simp at h
          · rename_i a3 m3 p3 halloc
            rw [Prod.mk.injEq, Option.some.injEq, Prod.mk.injEq] at h
            rcases h with ⟨hs2, hm, hp⟩
            subst hm
            rcases mi_arena_try_alloc_at_memid halloc with ⟨hk, hid, hex⟩
            exact ⟨a, hget, by simpa using hsuit, hk, hid, hex⟩

/-- Suitability forces the claim's conclusion once arena ids are positive
(ids in the registry are slot + 1). -/
theorem suitable_prop {a : Arena} {req : Int} {idx : Nat}
    (hid : a.id = mi_arena_id_create idx)
    (hs : mi_arena_id_is_suitable a.id a.exclusive req = true) :
    (req ≠ _mi_arena_id_none → a.id = req) ∧
    (req = _mi_arena_id_none → a.exclusive = false) := by
  unfold mi_arena_id_is_suitable at hs
  unfold _mi_arena_id_none at hs ⊢
  rw [Bool.or_eq_true, Bool.and_eq_true] at hs
  constructor
  · intro hreq
    rcases hs with ⟨_, hz⟩ | hid2
    · exact absurd (by simpa using hz) hreq
    · simpa using hid2
  · intro hreq
    rcases hs with ⟨hex, _⟩ | hid2
    · simpa using hex
    · have : a.id = req := by simpa using hid2
      rw [hid, hreq] at this
      unfold mi_arena_id_create at this
      omega

theorem wfIds_set {l : List (Option Arena)} {i : Nat} {arena : Arena}
    (hwf : wfIds l = true) (hid : arena.id = mi_arena_id_create i) :
    wfIds (l.set i (some arena)) = true := by
  unfold wfIds at hwf ⊢
  rw [List.all_eq_true] at hwf ⊢
  intro j hj
  rw [List.mem_range, List.length_set] at hj
  by_cases hij : i = j
  · subst hij
    rw [List.getD_eq_getElem?_getD, List.getElem?_set_self (by omega)]
    simpa using hid
  · rw [List.getD_eq_getElem?_getD, List.getElem?_set_ne hij,
      ← List.getD_eq_getElem?_getD]
    exact hwf j (List.mem_range.mpr hj)

/-- The at-id allocation respects the request under well-formed ids. -/
theorem alloc_at_id_exclusive {os : OS} {s : Registry} {arenaId : Int}
    {matchNumaNode : Bool} {numaNode : Int} {size : Nat} {commit allowLarge : Bool}
    {reqArenaId : Int} {s2 : Registry} {m : Memid} {p : Nat}
    (hwf : wfIds s.arenas = true)
    (h : mi_arena_try_alloc_at_id os s arenaId matchNumaNode numaNode size commit allowLarge
          reqArenaId = (s2, some (m, p))) :
    m.kind = MemKind.arena ∧
    (reqArenaId ≠ _mi_arena_id_none → m.arenaId = reqArenaId) ∧
    (reqArenaId = _mi_arena_id_none → m.isExclusive = false) := by
  rcases mi_arena_try_alloc_at_id_some h with ⟨a, hget, hsuit, hk, hid, hex⟩
  have haid := wfIds_getD hwf hget
  rcases suitable_prop haid hsuit with ⟨h1, h2⟩
  refine ⟨hk, ?_, ?_⟩
  · intro hreq
    rw [hid]
    exact h1 hreq
  · intro hreq
    rw [hex]
    exact h2 hreq

theorem mi_arena_try_alloc_loop_none {os : OS} {s : Registry} {matchNumaNode : Bool}
    {numaNode : Int} {size : Nat} {commit allowLarge : Bool} {reqArenaId : Int}
    {ids : List Nat} {s2 : Registry}
    (h : mi_arena_try_alloc_loop os s matchNumaNode numaNode size commit allowLarge reqArenaId
          ids = (s2, none)) : s2 = s := by
  induction ids with
  | nil =>
    simp only [mi_arena_try_alloc_loop] at h
    rw [Prod.mk.injEq] at h
    exact h.1.symm
  | cons i is ih =>
    simp only [mi_arena_try_alloc_loop] at h
    split at h
    · simp_all
    · exact ih h

theorem mi_arena_try_alloc_loop_exclusive {os : OS} {s : Registry} {matchNumaNode : Bool}
    {numaNode : Int} {size : Nat} {commit allowLarge : Bool} {reqArenaId : Int}
    {ids : List Nat} {s2 : Registry} {m : Memid} {p : Nat}
    (hwf : wfIds s.arenas = true)
    (h : mi_arena_try_alloc_loop os s matchNumaNode numaNode size commit allowLarge reqArenaId
          ids = (s2, some (m, p))) :
    m.kind = MemKind.arena ∧
    (reqArenaId ≠ _mi_arena_id_none → m.arenaId = reqArenaId) ∧
    (reqArenaId = _mi_arena_id_none → m.isExclusive = false) := by
  induction ids with
  | nil => simp [mi_arena_try_alloc_loop] at h
  | cons i is ih =>
    simp only [mi_arena_try_alloc_loop] at h
    split at h
    · rename_i s3 r heq
      rw [Prod.mk.injEq, Option.some.injEq] at h
      rcases h with ⟨hs, hr⟩
      subst hr
      exact alloc_at_id_exclusive hwf (by rw [heq, hs])
    · exact ih h

theorem mi_arena_try_alloc_exclusive {os : OS} {s : Registry} {numaNode : Int} {size : Nat}
    {commit allowLarge : Bool} {reqArenaId : Int} {s2 : Registry} {m : Memid} {p : Nat}
    (hwf : wfIds s.arenas = true)
    (h : mi_arena_try_alloc os s numaNode size commit allowLarge reqArenaId
          = (s2, some (m, p))) :
    m.kind = MemKind.arena ∧
    (reqArenaId ≠ _mi_arena_id_none → m.arenaId = reqArenaId) ∧
    (reqArenaId = _mi_arena_id_none → m.isExclusive = false) := by
  simp only [mi_arena_try_alloc] at h
  split at h
  · simp at h
  · split at h
    · split at h
      · exact alloc_at_id_exclusive hwf h
      · simp at h
    · split at h
      · rename_i s3 r heq
        rw [Prod.mk.injEq, Option.some.injEq] at h
        rcases h with ⟨hs, hr⟩
        subst hr
        exact mi_arena_try_alloc_loop_exclusive hwf (by rw [heq, hs])
      · split at h
        · exact mi_arena_try_alloc_loop_exclusive hwf h
        · simp at h

theorem mi_arena_try_alloc_none {os : OS} {s : Registry} {numaNode : Int} {size : Nat}
    {commit allowLarge : Bool} {reqArenaId : Int} {s2 : Registry}
    (h : mi_arena_try_alloc os s numaNode size commit allowLarge reqArenaId = (s2, none)) :
    s2 = s := by
  simp only [mi_arena_try_alloc] at h
  split at h
  · rw [Prod.mk.injEq] at h
    exact h.1.symm
  · split at h
    · split at h
      · exact mi_arena_try_alloc_at_id_none h
      · rw [Prod.mk.injEq] at h
        exact h.1.symm
    · split at h
      · simp_all
      · split at h
        · exact mi_arena_try_alloc_loop_none h
        · rw [Prod.mk.injEq] at h
          exact h.1.symm

theorem mi_arena_reserve_some {os : OS} {opts : Opts} {s : Registry} {reqSize : Nat}
    {allowLarge : Bool} {reqArenaId : Int} {s2 : Registry} {arenaId : Int} {target : Nat}
    (h : mi_arena_reserve os opts s reqSize allowLarge reqArenaId
          = (s2, some (arenaId, target))) :
    s2.count = s.count + 1 ∧ arenaId = mi_arena_id_create s.count ∧
    ∃ arena : Arena, arena.exclusive = false ∧ arena.id = arenaId ∧
      s2.arenas = s.arenas.set s.count (some arena) := by
  simp only [mi_arena_reserve] at h
  split at h
  · simp at h
  · split at h
    · simp at h
    · split at h
      · simp at h
      · split at h
        · simp at h
        · obtain ⟨r1, hr1⟩ : ∃ x,
              (if (!os.hasVirtualReserve) = true then opts.arenaReserve / 4
               else opts.arenaReserve) = x := ⟨_, rfl⟩
          rw [hr1] at h
          obtain ⟨r3, hr3⟩ : ∃ x,
              (if (decide (s.count ≥ 8) && decide (s.count ≤ 128)) = true then
                  2 ^ (s.count / 8) * _mi_align_up r1 MI_ARENA_BLOCK_SIZE
               else _mi_align_up r1 MI_ARENA_BLOCK_SIZE) = x := ⟨_, rfl⟩
          rw [hr3] at h
          split at h
          · simp at h
          · split at h
            · rename_i hres
              rw [Prod.mk.injEq, Option.some.injEq, Prod.mk.injEq] at h
              rcases h with ⟨hA, hB, hC⟩
              rw [← hA, ← hB]
              rcases mi_reserve_os_memory_ex_some hres with ⟨hc, hid, arena, hex, haid, hset⟩
              exact ⟨hc, hid, arena, hex, haid, hset⟩
            · simp at h

/-- C1.  For every allocation request: if `req_arena_id = X ≠ NONE` then a
returned arena memid names exactly arena `X`; if `req_arena_id = NONE`
then a returned arena memid never carries the exclusive flag (which
`mi_memid_create_arena` copies from the providing arena), so memory of an
exclusive arena is never returned.  The hypothesis `wfIds` states that
every registered arena's id is its slot index + 1, which `mi_arena_add`
establishes. -/
theorem C1_exclusive_respect (os : OS) (opts : Opts) (s : Registry)
    (size alignment alignOffset : Nat) (commit allowLarge : Bool) (reqArenaId : Int)
    (s2 : Registry) (m : Memid) (p : Nat)
    (hwf : wfIds s.arenas = true)
    (h : _mi_arena_alloc_aligned os opts s size alignment alignOffset commit allowLarge
          reqArenaId = (s2, some (m, p)))
    (hk : m.kind = MemKind.arena) :
    (reqArenaId ≠ _mi_arena_id_none → m.arenaId = reqArenaId) ∧
    (reqArenaId = _mi_arena_id_none → m.isExclusive = false) := by
  simp only [_mi_arena_alloc_aligned] at h
  split at h
  · -- the arena phase succeeded
    rename_i s1 r hphase
    rw [Prod.mk.injEq, Option.some.injEq] at h
    rcases h with ⟨hs, hr⟩
    subst hr
    split at hphase
    · -- arena allocation was attempted
      split at hphase
      · -- direct hit in an existing arena
        rename_i s3 r3 heq
        rw [Prod.mk.injEq, Option.some.injEq] at hphase
        rcases hphase with ⟨hs3, hr3⟩
        subst hr3
        rcases mi_arena_try_alloc_exclusive hwf (by rw [heq, hs3]) with ⟨_, h1, h2⟩
        exact ⟨h1, h2⟩
      · -- reserve a fresh arena, then allocate in it
        rename_i s3 heq3
        have hs3 : s3 = s := mi_arena_try_alloc_none heq3
        subst hs3
        split at hphase
        · rename_i hreq0
          split at hphase
          · rename_i s4 arenaId target heq4
            rcases mi_arena_reserve_some heq4 with ⟨hc4, hid4, arena4, hex4, haid4, hset4⟩
            have hwf4 : wfIds s4.arenas = true := by
              rw [hset4]
              exact wfIds_set hwf (by rw [haid4, hid4])
            rcases alloc_at_id_exclusive hwf4 hphase with ⟨_, h1, h2⟩
            exact ⟨h1, h2⟩
          · simp at hphase
        · simp at hphase
    · simp at hphase
  · -- the OS fallback
    rename_i s1 hphase
    split at h
    · simp at h
    · split at h
      · rw [Prod.mk.injEq, Option.some.injEq, Prod.mk.injEq] at h
        rcases h with ⟨hs, hm, hp⟩
        rw [← hm] at hk
        exact absurd hk (by simp [osAllocMemid])
      · simp at h

/-- The arena state after the witness allocation of `C1`. -/
def arenaW2 : Arena :=
  ⟨1, ⟨MemKind.os, 0, 0, false, true, false, false⟩, MI_ARENA_BLOCK_SIZE, 1, 1, -1, false,
   false, 0, 0, 1, some 0, some 0, 0, 18446744073709551615⟩

/-- Witness for C1: a concrete allocation that names arena 1 explicitly
and receives memory from exactly that arena. -/
theorem C1_exclusive_respect_witness :
    wfIds (⟨1, [some arenaW]⟩ : Registry).arenas = true ∧
    _mi_arena_alloc_aligned osW optsW ⟨1, [some arenaW]⟩ MI_ARENA_MIN_OBJ_SIZE 1 0 false true 1
        = (⟨1, [some arenaW2]⟩,
           some (⟨MemKind.arena, 1, 0, false, true, false, false⟩, MI_ARENA_BLOCK_SIZE)) ∧
    (⟨MemKind.arena, 1, 0, false, true, false, false⟩ : Memid).kind = MemKind.arena ∧
    (((1 : Int) ≠ _mi_arena_id_none →
        (⟨MemKind.arena, 1, 0, false, true, false, false⟩ : Memid).arenaId = 1) ∧
     ((1 : Int) = _mi_arena_id_none →
        (⟨MemKind.arena, 1, 0, false, true, false, false⟩ : Memid).isExclusive = false)) := by
  have hwf : wfIds (⟨1, [some arenaW]⟩ : Registry).arenas = true := by decide
  have hcall : _mi_arena_alloc_aligned osW optsW ⟨1, [some arenaW]⟩ MI_ARENA_MIN_OBJ_SIZE 1 0
      false true 1
      = (⟨1, [some arenaW2]⟩,
         some (⟨MemKind.arena, 1, 0, false, true, false, false⟩, MI_ARENA_BLOCK_SIZE)) := by
    rfl
  exact ⟨hwf, hcall, rfl,
    C1_exclusive_respect osW optsW ⟨1, [some arenaW]⟩ MI_ARENA_MIN_OBJ_SIZE 1 0 false true 1
      _ _ _ hwf hcall rfl⟩

/-! ## C9: minimum-size gate -/

/-- C9.  A request smaller than `MI_ARENA_MIN_OBJ_SIZE` (block_size/2,
32 MiB) never allocates from an arena: any non-NULL result of
`_mi_arena_alloc_aligned` carries an OS-kind memid (the direct OS
fallback). -/
theorem C9_min_size_gate (os : OS) (opts : Opts) (s : Registry)
    (size alignment alignOffset : Nat) (commit allowLarge : Bool) (reqArenaId : Int)
    (s2 : Registry) (m : Memid) (p : Nat)
    (hsize : size < MI_ARENA_MIN_OBJ_SIZE)
    (h : _mi_arena_alloc_aligned os opts s size alignment alignOffset commit allowLarge
          reqArenaId = (s2, some (m, p))) :
    m.kind = MemKind.os := by
  simp only [_mi_arena_alloc_aligned] at h
  split at h
  · rename_i s1 r hphase
    split at hphase
    · rename_i hcond
      rw [Bool.and_eq_true, Bool.and_eq_true, Bool.and_eq_true] at hcond
      have hge := of_decide_eq_true hcond.2.1.1
      omega
    · simp at hphase
  · split at h
    · simp at h
    · split at h
      · rw [Prod.mk.injEq, Option.some.injEq, Prod.mk.injEq] at h
        rcases h with ⟨h1, hm, hp⟩
        rw [← hm]
        rfl
      · simp at h

/-- Witness for C9: a one-byte request served by the OS fallback. -/
theorem C9_min_size_gate_witness :
    (1 : Nat) < MI_ARENA_MIN_OBJ_SIZE ∧
    _mi_arena_alloc_aligned osW optsW ⟨0, []⟩ 1 1 0 false true _mi_arena_id_none
        = (⟨0, []⟩, some (⟨MemKind.os, 0, 0, false, true, false, false⟩,
            2 * MI_ARENA_BLOCK_SIZE)) ∧
    (⟨MemKind.os, 0, 0, false, true, false, false⟩ : Memid).kind = MemKind.os := by
  have hcall : _mi_arena_alloc_aligned osW optsW ⟨0, []⟩ 1 1 0 false true _mi_arena_id_none
      = (⟨0, []⟩, some (⟨MemKind.os, 0, 0, false, true, false, false⟩,
          2 * MI_ARENA_BLOCK_SIZE)) := by rfl
  exact ⟨by decide, hcall,
    C9_min_size_gate osW optsW ⟨0, []⟩ 1 1 0 false true _mi_arena_id_none _ _ _
      (by decide) hcall⟩

/-! ## Shape lemmas for the purge engine and allocation -/

theorem bmSetRange_zero (bm idx : Nat) : bmSetRange bm 0 idx = bm := by
  unfold bmSetRange bmMask
  simp

theorem bmAnySet_zero (bm idx : Nat) : bmAnySet bm 0 idx = false := by
  unfold bmAnySet bmMask
  simp

theorem testBit_purgeClear (po : Option Nat) (n idx b : Nat) :
    ((purgeClear po n idx).getD 0).testBit b
      = ((po.getD 0).testBit b && !(decide (idx ≤ b) && decide (b < idx + n))) := by
  cases po with
  | none => simp [purgeClear]
  | some pu => simp [purgeClear, testBit_bmClearRange]

theorem mi_arena_try_claim_some {a : Arena} {blocks : Nat} {a2 : Arena} {i : Nat}
    (h : mi_arena_try_claim a blocks = some (a2, i)) :
    bmAnySet a.inuse blocks i = false ∧ a2.inuse = bmSetRange a.inuse blocks i ∧
    a2.purge = a.purge ∧ a2.committed = a.committed ∧ a2.dirty = a.dirty ∧
    a2.fieldCount = a.fieldCount ∧ a2.blockCount = a.blockCount ∧
    i + blocks ≤ MI_BITMAP_FIELD_BITS * a.fieldCount := by
  unfold mi_arena_try_claim at h
  split at h
  · simp at h
  · rename_i bm2 p heq
    rw [Option.some.injEq, Prod.mk.injEq] at h
    rcases h with ⟨h1, h2⟩
    subst h2
    rcases bmTryFindClaimAcross_some heq with ⟨hbm, hany, hle⟩
    rw [← h1]
    exact ⟨hany, by rw [hbm], rfl, rfl, rfl, rfl, rfl, hle⟩

/-- Effect of a successful `mi_arena_try_alloc_at` on the arena: the inuse
run is claimed, the same purge run is cleared, nothing else relevant to
`I1` changes. -/
theorem mi_arena_try_alloc_at_shape {os : OS} {a : Arena} {needed : Nat} {commit : Bool}
    {a2 : Arena} {m : Memid} {p : Nat}
    (h : mi_arena_try_alloc_at os a needed commit = some (a2, m, p)) :
    ∃ i, bmAnySet a.inuse needed i = false ∧
      a2.inuse = bmSetRange a.inuse needed i ∧
      a2.fieldCount = a.fieldCount ∧ a2.blockCount = a.blockCount ∧
      (∀ b, (a2.purge.getD 0).testBit b
          = ((a.purge.getD 0).testBit b && !(decide (i ≤ b) && decide (b < i + needed)))) := by
  simp only [mi_arena_try_alloc_at] at h
  split at h
  · simp at h
  · rename_i a1 bitmapIndex heq
    rcases mi_arena_try_claim_some heq with ⟨hany, hinuse, hpurge, _, _, hfc, hbc, _⟩
    repeat' split at h
    all_goals
      rw [Option.some.injEq, Prod.mk.injEq] at h
      rcases h with ⟨h1, h2⟩
      refine ⟨bitmapIndex, hany, ?_, ?_, ?_, ?_⟩
      all_goals rw [← h1]
      · exact hinuse
      · exact hfc
      · exact hbc
      · intro b
        rw [show (purgeClear a1.purge needed bitmapIndex)
            = (purgeClear a.purge needed bitmapIndex) from by rw [hpurge]]
        exact testBit_purgeClear a.purge needed bitmapIndex b

theorem testBit_purgeSet_outside (po : Option Nat) (n idx b : Nat)
    (hout : ¬(idx ≤ b ∧ b < idx + n))
    (hb : ((purgeSet po n idx).getD 0).testBit b = true) : (po.getD 0).testBit b = true := by
  cases po with
  | none => simpa [purgeSet] using hb
  | some pu =>
    simp only [purgeSet, Option.getD_some] at hb ⊢
    rw [testBit_bmSetRange] at hb
    rcases Bool.or_eq_true_iff.mp hb with h1 | h2
    · exact h1
    · rw [Bool.and_eq_true, decide_eq_true_eq, decide_eq_true_eq] at h2
      exact absurd h2 hout

theorem mi_arena_purge_shape (os : OS) (a : Arena) (idx n : Nat) :
    (mi_arena_purge os a idx n).inuse = a.inuse ∧
    (mi_arena_purge os a idx n).fieldCount = a.fieldCount ∧
    (∀ b, ((mi_arena_purge os a idx n).purge.getD 0).testBit b = true →
      (a.purge.getD 0).testBit b = true) := by
  unfold mi_arena_purge
  split
  · rename_i c pu hc hpu
    refine ⟨rfl, rfl, ?_⟩
    intro b hb
    simp only [hpu, Option.getD_some] at hb ⊢
    rw [testBit_bmClearRange, Bool.and_eq_true] at hb
    exact hb.1
  · exact ⟨rfl, rfl, fun b hb => hb⟩

theorem mi_arena_schedule_purge_shape (os : OS) (opts : Opts) (a : Arena) (idx n : Nat) :
    (mi_arena_schedule_purge os opts a idx n).inuse = a.inuse ∧
    (mi_arena_schedule_purge os opts a idx n).fieldCount = a.fieldCount ∧
    (∀ b, ¬(idx ≤ b ∧ b < idx + n) →
      ((mi_arena_schedule_purge os opts a idx n).purge.getD 0).testBit b = true →
      (a.purge.getD 0).testBit b = true) := by
  simp only [mi_arena_schedule_purge]
  split
  · exact ⟨rfl, rfl, fun b _ hb => hb⟩
  · split
    · rcases mi_arena_purge_shape os a idx n with ⟨h1, h2, h3⟩
      exact ⟨h1, h2, fun b _ hb => h3 b hb⟩
    · refine ⟨rfl, rfl, ?_⟩
      intro b hout hb
      exact testBit_purgeSet_outside a.purge n idx b hout hb

theorem tryClaimShrink_shape (a : Arena) (bitlen bmIdx : Nat) :
    (tryClaimShrink a bitlen bmIdx).1.inuse
        = bmSetRange a.inuse (tryClaimShrink a bitlen bmIdx).2 bmIdx ∧
    bmAnySet a.inuse (tryClaimShrink a bitlen bmIdx).2 bmIdx = false ∧
    (tryClaimShrink a bitlen bmIdx).1.purge = a.purge ∧
    (tryClaimShrink a bitlen bmIdx).1.fieldCount = a.fieldCount := by
  induction bitlen with
  | zero =>
    refine ⟨?_, ?_, rfl, rfl⟩
    · exact (bmSetRange_zero a.inuse bmIdx).symm
    · exact bmAnySet_zero a.inuse bmIdx
  | succ n ih =>
    simp only [tryClaimShrink]
    split
    · rename_i inuse2 heq
      rcases bmTryClaim_some heq with ⟨hany, hbm⟩
      exact ⟨by simp [hbm], hany, rfl, rfl⟩
    · exact ih

theorem mi_arena_purge_range_go_shape (os : OS) (idx endidx purgeMask bitlenFull : Nat) :
    ∀ (fuel bitidx : Nat) (a : Arena) (allPurged : Bool),
      (mi_arena_purge_range_go os a idx endidx purgeMask bitlenFull bitidx allPurged
          fuel).1.inuse = a.inuse ∧
      (mi_arena_purge_range_go os a idx endidx purgeMask bitlenFull bitidx allPurged
          fuel).1.fieldCount = a.fieldCount ∧
      (∀ b, ((mi_arena_purge_range_go os a idx endidx purgeMask bitlenFull bitidx allPurged
          fuel).1.purge.getD 0).testBit b = true → (a.purge.getD 0).testBit b = true) := by
  intro fuel
  induction fuel with
  | zero =>
    intro bitidx a allPurged
    exact ⟨rfl, rfl, fun b hb => hb⟩
  | succ f ih =>
    intro bitidx a allPurged
    simp only [mi_arena_purge_range_go]
    split
    · split
      · exact ⟨(ih _ _ _).1.trans (mi_arena_purge_shape os a _ _).1,
          (ih _ _ _).2.1.trans (mi_arena_purge_shape os a _ _).2.1,
          fun b hb => (mi_arena_purge_shape os a _ _).2.2 b ((ih _ _ _).2.2 b hb)⟩
      · exact ⟨(ih _ _ _).1, (ih _ _ _).2.1, fun b hb => (ih _ _ _).2.2 b hb⟩
    · exact ⟨rfl, rfl, fun b hb => hb⟩

theorem mi_arena_purge_range_shape (os : OS) (a : Arena) (idx startidx bitlen purgeMask : Nat) :
    (mi_arena_purge_range os a idx startidx bitlen purgeMask).1.inuse = a.inuse ∧
    (mi_arena_purge_range os a idx startidx bitlen purgeMask).1.fieldCount = a.fieldCount ∧
    (∀ b, ((mi_arena_purge_range os a idx startidx bitlen purgeMask).1.purge.getD 0).testBit b
        = true → (a.purge.getD 0).testBit b = true) :=
  mi_arena_purge_range_go_shape os idx (startidx + bitlen) purgeMask bitlen _ startidx a false

theorem mi_arena_try_purge_field_go_shape (os : OS) (i : Nat) :
    ∀ (fuel purgeVar bitidx : Nat) (a : Arena) (anyPurged fullPurge : Bool),
      (mi_arena_try_purge_field_go os a i purgeVar bitidx anyPurged fullPurge fuel).1.inuse
          = a.inuse ∧
      (mi_arena_try_purge_field_go os a i purgeVar bitidx anyPurged fullPurge
          fuel).1.fieldCount = a.fieldCount ∧
      (∀ b, ((mi_arena_try_purge_field_go os a i purgeVar bitidx anyPurged fullPurge
          fuel).1.purge.getD 0).testBit b = true → (a.purge.getD 0).testBit b = true) := by
  intro fuel
  induction fuel with
  | zero =>
    intro purgeVar bitidx a anyPurged fullPurge
    exact ⟨rfl, rfl, fun b hb => hb⟩
  | succ f ih =>
    intro purgeVar bitidx a anyPurged fullPurge
    simp only [mi_arena_try_purge_field_go]
    set T := tryClaimShrink a (countRun purgeVar bitidx (MI_BITMAP_FIELD_BITS - bitidx))
      (mi_bitmap_index_create i bitidx) with hT
    have hsh := tryClaimShrink_shape a (countRun purgeVar bitidx (MI_BITMAP_FIELD_BITS - bitidx))
      (mi_bitmap_index_create i bitidx)
    rw [← hT] at hsh
    rcases hsh with ⟨hin1, hany1, hpu1, hfc1⟩
    split
    · -- bitidx < MI_BITMAP_FIELD_BITS
      split
      · -- bitlen > 0 : claim, purge the range, release the inuse bits
        set R := mi_arena_purge_range os T.1 i bitidx T.2 (bmField (T.1.purge.getD 0) i)
          with hR
        have hra := mi_arena_purge_range_shape os T.1 i bitidx T.2
          (bmField (T.1.purge.getD 0) i)
        rw [← hR] at hra
        rcases hra with ⟨hin2, hfc2, hpu2⟩
        refine ⟨?_, ?_, ?_⟩
        · rw [(ih _ _ _ _ _).1]
          show bmClearRange _ _ _ = a.inuse
          rw [hin2, hin1]
          exact bmClearRange_bmSetRange hany1
        · rw [(ih _ _ _ _ _).2.1]
          exact hfc2.trans hfc1
        · intro b hb
          have hb2 := (ih _ _ _ _ _).2.2 b hb
          rw [hpu1] at hpu2
          exact hpu2 b hb2
      · -- bitlen = 0 : skip the zero bit
        rename_i hlen
        have hz : T.2 = 0 := by omega
        refine ⟨?_, ?_, ?_⟩
        · rw [(ih _ _ _ _ _).1, hin1, hz]
          exact bmSetRange_zero a.inuse (mi_bitmap_index_create i bitidx)
        · rw [(ih _ _ _ _ _).2.1]
          exact hfc1
        · intro b hb
          have hb2 := (ih _ _ _ _ _).2.2 b hb
          rw [hpu1] at hb2
          exact hb2
    · exact ⟨rfl, rfl, fun b hb => hb⟩

theorem mi_arena_try_purge_fields_shape (os : OS) :
    ∀ (ids : List Nat) (a : Arena),
      (mi_arena_try_purge_fields os a ids).1.inuse = a.inuse ∧
      (mi_arena_try_purge_fields os a ids).1.fieldCount = a.fieldCount ∧
      (∀ b, ((mi_arena_try_purge_fields os a ids).1.purge.getD 0).testBit b = true →
        (a.purge.getD 0).testBit b = true) := by
  intro ids
  induction ids with
  | nil => intro a; exact ⟨rfl, rfl, fun b hb => hb⟩
  | cons i is ih =>
    intro a
    simp only [mi_arena_try_purge_fields]
    split
    · rcases mi_arena_try_purge_field_go_shape os i (MI_BITMAP_FIELD_BITS + 1)
        (bmField (a.purge.getD 0) i) 0 a false true with ⟨hin1, hfc1, hpu1⟩
      rcases ih (mi_arena_try_purge_field_go os a i (bmField (a.purge.getD 0) i) 0 false true
        (MI_BITMAP_FIELD_BITS + 1)).1 with ⟨hin2, hfc2, hpu2⟩
      exact ⟨hin2.trans hin1, hfc2.trans hfc1, fun b hb => hpu1 b (hpu2 b hb)⟩
    · exact ih a

theorem mi_arena_try_purge_shape (os : OS) (opts : Opts) (a : Arena) (now : Int)
    (force : Bool) :
    (mi_arena_try_purge os opts a now force).1.inuse = a.inuse ∧
    (mi_arena_try_purge os opts a now force).1.fieldCount = a.fieldCount ∧
    (∀ b, ((mi_arena_try_purge os opts a now force).1.purge.getD 0).testBit b = true →
      (a.purge.getD 0).testBit b = true) := by
  simp only [mi_arena_try_purge]
  split
  · exact ⟨rfl, rfl, fun b hb => hb⟩
  · split
    · exact ⟨rfl, rfl, fun b hb => hb⟩
    · split
      · exact ⟨rfl, rfl, fun b hb => hb⟩
      · rcases mi_arena_try_purge_fields_shape os
          (List.range ({ a with purgeExpire := (0 : Int) } : Arena).fieldCount)
          { a with purgeExpire := (0 : Int) } with ⟨hin1, hfc1, hpu1⟩
        split
        · split
          · exact ⟨hin1, hfc1, fun b hb => hpu1 b hb⟩
          · exact ⟨hin1, hfc1, fun b hb => hpu1 b hb⟩
        · exact ⟨hin1, hfc1, fun b hb => hpu1 b hb⟩

theorem invI1_of_le {a a2 : Arena} (hin : a2.inuse = a.inuse)
    (hfc : a2.fieldCount = a.fieldCount)
    (hpu : ∀ b, (a2.purge.getD 0).testBit b = true → (a.purge.getD 0).testBit b = true)
    (h : invI1 a = true) : invI1 a2 = true := by
  rw [invI1_iff] at h ⊢
  intro b hb hp
  rw [hin]
  exact h b (by rw [hfc] at hb; exact hb) (hpu b hp)

theorem regInvI1_getD {s : Registry} {i : Nat} {a : Arena}
    (hreg : regInvI1 s = true) (h : s.arenas.getD i none = some a) : invI1 a = true := by
  unfold regInvI1 at hreg
  rw [List.all_eq_true] at hreg
  rw [List.getD_eq_getElem?_getD] at h
  cases hx : s.arenas[i]? with
  | none => rw [hx] at h; simp at h
  | some oa =>
    rw [hx] at h
    simp only [Option.getD_some] at h
    subst h
    have hmem : some a ∈ s.arenas := List.getElem?_mem hx
    simpa using hreg _ hmem

theorem regInvI1_set {s : Registry} {i : Nat} {a : Arena} {c : Nat}
    (hreg : regInvI1 s = true) (ha : invI1 a = true) :
    regInvI1 { count := c, arenas := s.arenas.set i (some a) } = true := by
  unfold regInvI1 at hreg ⊢
  rw [List.all_eq_true] at hreg ⊢
  intro x hx
  rcases List.mem_or_eq_of_mem_set hx with hmem | heq
  · exact hreg x hmem
  · subst heq
    simpa using ha

theorem mi_arenas_try_purge_go_inv (os : OS) (opts : Opts) :
    ∀ (ids : List Nat) (s : Registry) (now : Int) (force : Bool) (budget : Nat),
      regInvI1 s = true →
      regInvI1 (mi_arenas_try_purge_go os opts s now force budget ids) = true := by
  intro ids
  induction ids with
  | nil => intro s now force budget h; exact h
  | cons i is ih =>
    intro s now force budget h
    simp only [mi_arenas_try_purge_go]
    split
    · exact ih s now force budget h
    · rename_i a hget
      have hsh := mi_arena_try_purge_shape os opts a now force
      have ha2 : invI1 (mi_arena_try_purge os opts a now force).1 = true :=
        invI1_of_le hsh.1 hsh.2.1 hsh.2.2 (regInvI1_getD h hget)
      have hs2 : regInvI1
          ⟨s.count, s.arenas.set i (some (mi_arena_try_purge os opts a now force).1)⟩ = true :=
        regInvI1_set h ha2
      split
      · split
        · exact hs2
        · exact ih _ now force _ hs2
      · exact ih _ now force _ hs2

theorem mi_arenas_try_purge_inv {os : OS} {opts : Opts} {s : Registry}
    {force visitAll : Bool} (h : regInvI1 s = true) :
    regInvI1 (mi_arenas_try_purge os opts s force visitAll) = true := by
  simp only [mi_arenas_try_purge]
  split
  · exact h
  · split
    · exact h
    · exact mi_arenas_try_purge_go_inv os opts _ s _ _ _ h

theorem invI1_after_unclaim {arena a1 : Arena} (blocks bitmapIdx : Nat)
    (hin : a1.inuse = arena.inuse) (hfc : a1.fieldCount = arena.fieldCount)
    (hpu : ∀ b, ¬(bitmapIdx ≤ b ∧ b < bitmapIdx + blocks) →
      (a1.purge.getD 0).testBit b = true → (arena.purge.getD 0).testBit b = true)
    (ha : invI1 arena = true) :
    invI1 { a1 with inuse := (bmUnclaimAcross a1.inuse blocks bitmapIdx).1 } = true := by
  rw [invI1_iff]
  intro b hb hp
  show ((bmUnclaimAcross a1.inuse blocks bitmapIdx).1).testBit b = false
  unfold bmUnclaimAcross
  simp only
  rw [testBit_bmClearRange]
  by_cases hrange : bitmapIdx ≤ b ∧ b < bitmapIdx + blocks
  · simp [hrange.1, hrange.2]
  · have hpb := hpu b hrange hp
    have hfree := (invI1_iff arena).mp ha b (by
      have hb2 : b < MI_BITMAP_FIELD_BITS * a1.fieldCount := hb
      rw [hfc] at hb2
      exact hb2) hpb
    rw [hin, hfree]
    rfl

/-- Continuation of the free after the decommit step: release the inuse
run and either report a double free or run the purge sweep; `I1` is
preserved either way. -/
theorem free_unclaim_inv (os : OS) (opts : Opts) (s : Registry)
    (arenaIdx blocks bitmapIdx : Nat) {arena a1 : Arena}
    (hin : a1.inuse = arena.inuse) (hfc : a1.fieldCount = arena.fieldCount)
    (hpu : ∀ b, ¬(bitmapIdx ≤ b ∧ b < bitmapIdx + blocks) →
      (a1.purge.getD 0).testBit b = true → (arena.purge.getD 0).testBit b = true)
    (h : regInvI1 s = true) (harena : invI1 arena = true) :
    regInvI1 ((if !(bmUnclaimAcross a1.inuse blocks bitmapIdx).2 then
        FreeOutcome.doubleFree ⟨s.count, s.arenas.set arenaIdx
          (some { a1 with inuse := (bmUnclaimAcross a1.inuse blocks bitmapIdx).1 })⟩
      else FreeOutcome.freed (mi_arenas_try_purge os opts
          ⟨s.count, s.arenas.set arenaIdx
            (some { a1 with inuse := (bmUnclaimAcross a1.inuse blocks bitmapIdx).1 })⟩
          false false)).stateD s) = true := by
  have ha2 := invI1_after_unclaim blocks bitmapIdx hin hfc hpu harena
  have hs2 := regInvI1_set (i := arenaIdx) (c := s.count) h ha2
  split
  · exact hs2
  · exact mi_arenas_try_purge_inv hs2

/-- Invariant `I1` is preserved by the arena branch of the free. -/
theorem mi_arena_free_at_inv (os : OS) (opts : Opts) (s : Registry)
    (arenaIdx bitmapIdx size : Nat) (allCommitted : Bool) (arena : Arena)
    (h : regInvI1 s = true) (harena : invI1 arena = true) :
    regInvI1 ((mi_arena_free_at os opts s arenaIdx bitmapIdx size allCommitted
        arena).stateD s) = true := by
  simp only [mi_arena_free_at]
  split
  · exact h
  · split
    · exact free_unclaim_inv os opts s arenaIdx _ bitmapIdx rfl rfl
        (fun b _ hb => hb) h harena
    · split
      · rcases mi_arena_schedule_purge_shape os opts
          { arena with committed := some (bmClearRange
              (arena.committed.getD 0) (mi_block_count_of_size size) bitmapIdx) }
          bitmapIdx (mi_block_count_of_size size) with ⟨h1, h2, h3⟩
        exact free_unclaim_inv os opts s arenaIdx _ bitmapIdx h1 h2
          (fun b hout hb => h3 b hout hb) h harena
      · rcases mi_arena_schedule_purge_shape os opts arena
          bitmapIdx (mi_block_count_of_size size) with ⟨h1, h2, h3⟩
        exact free_unclaim_inv os opts s arenaIdx _ bitmapIdx h1 h2
          (fun b hout hb => h3 b hout hb) h harena

/-- Invariant `I1` is preserved by a complete `_mi_arena_free`, whatever
its outcome (for the out-of-bounds outcome the pre-state stands in). -/
theorem _mi_arena_free_inv (os : OS) (opts : Opts) (s : Registry) (p size csize : Nat)
    (memid : Memid) (h : regInvI1 s = true) :
    regInvI1 ((_mi_arena_free os opts s p size csize memid).stateD s) = true := by
  simp only [_mi_arena_free]
  split
  · exact h
  · split
    · exact h
    · split
      · exact mi_arenas_try_purge_inv h
      · split
        · split
          · exact h
          · split
            · exact h
            · rename_i arena hget
              exact mi_arena_free_at_inv os opts s _ _ size _ arena h (regInvI1_getD h hget)
        · exact mi_arenas_try_purge_inv h

/-! ## C3: invariant I1 across arena transitions -/

/-- A successful block claim preserves invariant `I1`: the purge bits of
the claimed run are cleared in the same operation. -/
theorem invI1_after_claim {os : OS} {a : Arena} {needed : Nat} {commit : Bool}
    {a2 : Arena} {m : Memid} {p : Nat}
    (h : mi_arena_try_alloc_at os a needed commit = some (a2, m, p))
    (ha : invI1 a = true) : invI1 a2 = true := by
  rcases mi_arena_try_alloc_at_shape h with ⟨i, _, hinuse, hfc, _, hpu⟩
  rw [invI1_iff]
  intro b hb hp
  rw [hpu b, Bool.and_eq_true] at hp
  rcases hp with ⟨hp1, hp2⟩
  rw [Bool.not_eq_true'] at hp2
  have hb2 : b < MI_BITMAP_FIELD_BITS * a.fieldCount := by rw [← hfc]; exact hb
  have hfree := (invI1_iff a).mp ha b hb2 hp1
  rw [hinuse, testBit_bmSetRange, hfree, hp2]
  rfl

/-- An arena with block 0 in use and an empty purge bitmap. -/
def arenaC3 : Arena :=
  ⟨1, _mi_memid_none, 0, 64, 1, 0, false, false, 0, 0, 0, some 0, some 0, 0, 1⟩

/-- Counterexample for C3.  The free path schedules the purge of the
released range before it clears the range's `inuse` bits (the call order
in `_mi_arena_free`), so the purge-scheduling transition itself produces a
state where a `purge` bit and the matching `inuse` bit are both set:
starting from an arena satisfying `I1` with block 0 in use, scheduling a
purge of that block (delay 10, not preloading) breaks `I1`. -/
theorem C3_counterexample :
    invI1 arenaC3 = true ∧
    invI1 (mi_arena_schedule_purge osW optsW arenaC3 0 1) = false := by decide

/-- C3 (amended): invariant `I1` — every block scheduled for a purge is
not in use — holds after every complete arena operation rather than after
every atomic transition within one: it is preserved by a successful block
claim (`mi_arena_try_alloc_at`), by a complete free (`_mi_arena_free`,
whatever its outcome), and by a purge sweep (`mi_arenas_try_purge`).
Between the purge-scheduling step and the `inuse` release inside one free
the invariant is transiently false (see the counterexample). -/
theorem C3_purge_invariant_amended (os : OS) (opts : Opts) :
    (∀ (a : Arena) (needed : Nat) (commit : Bool) (a2 : Arena) (m : Memid) (ptr : Nat),
        invI1 a = true →
        mi_arena_try_alloc_at os a needed commit = some (a2, m, ptr) →
        invI1 a2 = true) ∧
    (∀ (s : Registry) (p size csize : Nat) (memid : Memid),
        regInvI1 s = true →
        regInvI1 ((_mi_arena_free os opts s p size csize memid).stateD s) = true) ∧
    (∀ (s : Registry) (force visitAll : Bool),
        regInvI1 s = true →
        regInvI1 (mi_arenas_try_purge os opts s force visitAll) = true) :=
  ⟨fun _ _ _ _ _ _ ha h => invI1_after_claim h ha,
   fun s p size csize memid h => _mi_arena_free_inv os opts s p size csize memid h,
   fun _ _ _ h => mi_arenas_try_purge_inv h⟩

/-- A one-block arena whose tail bits are in use and block 0 is free. -/
def arenaC3w : Arena :=
  ⟨1, _mi_memid_none, 0, 1, 1, 0, false, false, 0, 0, 0, some 0, some 0, 0,
   18446744073709551614⟩

/-- The arena-kind memid naming block 0 of arena id 1. -/
def memidC3 : Memid := ⟨MemKind.arena, 1, 0, false, false, false, false⟩

/-- Witness for C3: the three conjuncts at concrete inputs — a claim of
block 0 in `arenaC3w`, a free of that block, and a forced purge sweep. -/
theorem C3_purge_invariant_amended_witness :
    invI1 { arenaC3w with inuse := 18446744073709551615 } = true ∧
    regInvI1 ((_mi_arena_free osW optsW
        ⟨1, [some { arenaC3w with inuse := 18446744073709551615 }]⟩
        MI_ARENA_BLOCK_SIZE MI_ARENA_BLOCK_SIZE MI_ARENA_BLOCK_SIZE memidC3).stateD
        ⟨1, [some { arenaC3w with inuse := 18446744073709551615 }]⟩) = true ∧
    regInvI1 (mi_arenas_try_purge osW optsW
        ⟨1, [some { arenaC3w with inuse := 18446744073709551615 }]⟩ true true) = true :=
  ⟨(C3_purge_invariant_amended osW optsW).1 arenaC3w 1 false
      { arenaC3w with inuse := 18446744073709551615 } memidC3 0 (by decide) (by decide),
   (C3_purge_invariant_amended osW optsW).2.1
      ⟨1, [some { arenaC3w with inuse := 18446744073709551615 }]⟩
      MI_ARENA_BLOCK_SIZE MI_ARENA_BLOCK_SIZE MI_ARENA_BLOCK_SIZE memidC3 (by decide),
   (C3_purge_invariant_amended osW optsW).2.2
      ⟨1, [some { arenaC3w with inuse := 18446744073709551615 }]⟩ true true (by decide)⟩

/-! ## C5: freeing with an invalid arena index -/

/-- A one-block arena with every block in use, target of the in-range
invalid-bit-index free. -/
def arenaC5 : Arena :=
  ⟨1, _mi_memid_none, 0, 1, 1, 0, false, false, 0, 0, 0, some 0, some 0, 0,
   18446744073709551615⟩

/-- C5: `mi_arena_id_index` maps any arena id at most 0 to
`MI_MAX_ARENAS`, and `_mi_arena_free` loads `mi_arenas[arena_idx]` without
checking the index against `MI_MAX_ARENAS` (the bound is only a debug
assertion), so an arena-kind memid with id 0 makes the free read one past
the end of the registry array instead of taking the diagnose-and-ignore
path.  In-range invalid memids are handled as the claim says: an empty
slot is diagnosed as an invalid arena and a bit index at or beyond the
arena's field count is diagnosed as an invalid block, both leaving the
registry unchanged. -/
theorem C5_invalid_arena_oob :
    mi_arena_id_index 0 = MI_MAX_ARENAS ∧
    _mi_arena_free osW optsW ⟨0, List.replicate MI_MAX_ARENAS none⟩ MI_ARENA_BLOCK_SIZE
        MI_ARENA_BLOCK_SIZE MI_ARENA_BLOCK_SIZE
        ⟨MemKind.arena, 0, 0, false, false, false, false⟩
      = FreeOutcome.outOfBounds MI_MAX_ARENAS ∧
    _mi_arena_free osW optsW ⟨0, List.replicate MI_MAX_ARENAS none⟩ MI_ARENA_BLOCK_SIZE
        MI_ARENA_BLOCK_SIZE MI_ARENA_BLOCK_SIZE
        ⟨MemKind.arena, 5, 0, false, false, false, false⟩
      = FreeOutcome.invalidArena ⟨0, List.replicate MI_MAX_ARENAS none⟩ ∧
    _mi_arena_free osW optsW ⟨1, [some arenaC5]⟩ MI_ARENA_BLOCK_SIZE
        MI_ARENA_BLOCK_SIZE MI_ARENA_BLOCK_SIZE
        ⟨MemKind.arena, 1, 64, false, false, false, false⟩
      = FreeOutcome.invalidBlock ⟨1, [some arenaC5]⟩ := by decide

/-! ## C2: double free of an arena range -/

theorem bmAllSet_false_of_anyClear {bm n idx : Nat} (hn : 0 < n)
    (h : bmAnySet bm n idx = false) : bmAllSet bm n idx = false := by
  cases hall : bmAllSet bm n idx
  · rfl
  · have h1 := (bmAllSet_iff bm n idx).mp hall idx (le_refl idx) (by omega)
    have h2 := (bmAnySet_false_iff bm n idx).mp h idx (le_refl idx) (by omega)
    rw [h1] at h2
    exact absurd h2 (by simp)

/-- A one-block arena after a first free of block 0: the block's `inuse`
bit is clear, its `purge` bit is set, and a purge is pending at time
100. -/
def arenaC2 : Arena :=
  ⟨1, _mi_memid_none, 0, 1, 1, 0, false, false, 0, 100, 0, some 1, some 1, 0,
   18446744073709551614⟩

/-- The arena-kind memid of the block being freed twice. -/
def memidC2 : Memid := ⟨MemKind.arena, 1, 0, false, false, false, false⟩

/-- Counterexample for C2: a second free of an already-free block is
reported as a double free, but the arena state is not left unchanged —
`mi_arena_schedule_purge` runs before the `inuse` release that detects the
double free, so `purge_expire` is extended from 100 to 101 (by
`delay/10`). -/
theorem C2_counterexample :
    _mi_arena_free osW optsW ⟨1, [some arenaC2]⟩ MI_ARENA_BLOCK_SIZE MI_ARENA_BLOCK_SIZE
        MI_ARENA_BLOCK_SIZE memidC2
      = FreeOutcome.doubleFree ⟨1, [some { arenaC2 with purgeExpire := 101 }]⟩ ∧
    arenaC2.purgeExpire = 100 := by decide

/-- C2 (amended): a second `_mi_arena_free` of an arena block range whose
`inuse` bits are already clear reports a double free and leaves every
bitmap (`inuse`, `committed`, `purge`) unchanged, but it does modify
`purge_expire`: the purge scheduling runs before the double free is
detected, so a pending expiry is extended by `delay/10`.  The hypotheses
state the second-free situation: a valid in-range arena memid, a fully
committed range (`csize = size`), the range's purge bits already set and
its inuse bits already clear, a positive purge delay outside preloading,
and a pending expiry. -/
theorem C2_double_free_amended (os : OS) (opts : Opts) (s : Registry)
    (p size csize : Nat) (memid : Memid) (arena : Arena)
    (hp : p ≠ 0) (hsz : size ≠ 0) (hcs : csize = size)
    (hkind : memid.kind = MemKind.arena)
    (hidx : mi_arena_id_index memid.arenaId < MI_MAX_ARENAS)
    (hget : s.arenas.getD (mi_arena_id_index memid.arenaId) none = some arena)
    (hfield : mi_bitmap_index_field memid.blockIndex < arena.fieldCount)
    (hpin : arena.memid.isPinned = false)
    (hcom : arena.committed ≠ none)
    (hpnone : arena.purge ≠ none)
    (hpurge : bmAllSet (arena.purge.getD 0) (mi_block_count_of_size size)
        memid.blockIndex = true)
    (hfree : bmAnySet arena.inuse (mi_block_count_of_size size) memid.blockIndex = false)
    (hpre : os.preloading = false)
    (hdelay : 0 < mi_arena_purge_delay opts)
    (hexp : arena.purgeExpire ≠ 0) :
    _mi_arena_free os opts s p size csize memid
      = FreeOutcome.doubleFree ⟨s.count, s.arenas.set (mi_arena_id_index memid.arenaId)
          (some { arena with
                    purgeExpire := arena.purgeExpire + mi_arena_purge_delay opts / 10 })⟩ := by
  have h26 : (2 : Nat) ^ 26 = 67108864 := by norm_num
  have hblocks : 0 < mi_block_count_of_size size := by
    simp only [mi_block_count_of_size, _mi_divide_up, MI_ARENA_BLOCK_SIZE, h26]
    omega
  obtain ⟨c, hc⟩ := Option.ne_none_iff_exists'.mp hcom
  obtain ⟨pu, hpu⟩ := Option.ne_none_iff_exists'.mp hpnone
  rw [hcs]
  simp only [_mi_arena_free]
  rw [if_neg (by simpa using hp), if_neg (by simpa using hsz),
    if_neg (by simp [hkind]), if_pos (by simp [hkind]), if_neg (by omega), hget]
  simp only [mi_arena_free_at]
  rw [if_neg (by omega)]
  rw [show (arena.memid.isPinned || arena.committed == none) = false by
    simp [hpin, hc]]
  simp only [Bool.false_eq_true, if_false]
  rw [show (!(size == size)) = false by simp]
  simp only [Bool.false_eq_true, if_false]
  rw [show mi_arena_schedule_purge os opts arena memid.blockIndex
        (mi_block_count_of_size size)
      = { arena with
            purgeExpire := arena.purgeExpire + mi_arena_purge_delay opts / 10 } from by
    simp only [mi_arena_schedule_purge]
    rw [if_neg (by omega), if_neg (by simp [hpre]; omega)]
    rw [show (arena.purgeExpire != 0) = true by simpa using hexp]
    simp only [if_true, hpu, purgeSet]
    rw [show bmSetRange pu (mi_block_count_of_size size) memid.blockIndex = pu from
      bmSetRange_of_allSet (by rw [hpu] at hpurge; exact hpurge)]]
  simp only [bmUnclaimAcross]
  rw [show bmClearRange arena.inuse (mi_block_count_of_size size) memid.blockIndex
      = arena.inuse from bmClearRange_of_anyClear hfree]
  rw [bmAllSet_false_of_anyClear hblocks hfree]
  rfl

/-- Witness for C2: the amended theorem applied to the concrete
second-free scenario of the counterexample state. -/
theorem C2_double_free_amended_witness :
    _mi_arena_free osW optsW ⟨1, [some arenaC2]⟩ MI_ARENA_BLOCK_SIZE MI_ARENA_BLOCK_SIZE
        MI_ARENA_BLOCK_SIZE memidC2
      = FreeOutcome.doubleFree ⟨(⟨1, [some arenaC2]⟩ : Registry).count,
          (⟨1, [some arenaC2]⟩ : Registry).arenas.set (mi_arena_id_index memidC2.arenaId)
          (some { arenaC2 with
                    purgeExpire := arenaC2.purgeExpire
                      + mi_arena_purge_delay optsW / 10 })⟩ :=
  C2_double_free_amended osW optsW ⟨1, [some arenaC2]⟩ MI_ARENA_BLOCK_SIZE
    MI_ARENA_BLOCK_SIZE MI_ARENA_BLOCK_SIZE memidC2 arenaC2
    (by decide) (by decide) rfl rfl (by decide) rfl (by decide) rfl
    (by decide) (by decide) (by decide) (by decide) rfl (by decide) (by decide)

/-! ## C8: tail bits beyond block_count -/

/-- C8: at arena creation every tail bit at or beyond `block_count` of the
inuse bitmap is set (`tailReserved`); a successful block claim can only
land strictly below `block_count` and keeps the tail bits set; and the
inuse release of a free whose range lies within `block_count` never clears
a tail bit.  Together: no allocation is ever returned from the region
beyond `block_count` blocks. -/
theorem C8_tail_blocks (os : OS) :
    (∀ (s : Registry) (start size : Nat) (isLarge : Bool) (numaNode : Int)
        (exclusive : Bool) (memid : Memid) (s2 : Registry) (id : Int),
        mi_manage_os_memory_ex2 os s start size isLarge numaNode exclusive memid
            = (s2, some id) →
        ∃ arena : Arena, s2.arenas = s.arenas.set s.count (some arena) ∧
          arena.id = id ∧ tailReserved arena = true) ∧
    (∀ (a : Arena) (blocks : Nat) (a2 : Arena) (i : Nat),
        tailReserved a = true → 0 < blocks →
        mi_arena_try_claim a blocks = some (a2, i) →
        i + blocks ≤ a.blockCount ∧ tailReserved a2 = true) ∧
    (∀ (a : Arena) (n idx : Nat),
        tailReserved a = true → idx + n ≤ a.blockCount →
        tailReserved { a with inuse := (bmUnclaimAcross a.inuse n idx).1 } = true) := by
  refine ⟨?_, ?_, ?_⟩
  · intro s start size isLarge numaNode exclusive memid s2 id h
    rcases mi_manage_os_memory_ex2_some h with
      ⟨_, hid, _, _, arena, _, haid, _, _, htail, hset⟩
    exact ⟨arena, hset, by rw [haid], (tailReserved_iff arena).mpr htail⟩
  · intro a blocks a2 i htail hpos h
    rcases mi_arena_try_claim_some h with ⟨hany, hinuse, _, _, _, hfc, hbc, hle⟩
    have hbound : i + blocks ≤ a.blockCount := by
      by_contra hgt
      have hb1 : a.blockCount ≤ max i a.blockCount := Nat.le_max_right i a.blockCount
      have hb2 : max i a.blockCount < i + blocks := by omega
      have hset := (tailReserved_iff a).mp htail (max i a.blockCount) hb1 (by omega)
      have hclear := (bmAnySet_false_iff a.inuse blocks i).mp hany (max i a.blockCount)
        (Nat.le_max_left i a.blockCount) hb2
      rw [hset] at hclear
      exact absurd hclear (by simp)
    refine ⟨hbound, (tailReserved_iff a2).mpr ?_⟩
    intro b h1 h2
    rw [hinuse, testBit_bmSetRange,
      (tailReserved_iff a).mp htail b (by rw [← hbc]; exact h1) (by rw [← hfc]; exact h2)]
    rfl
  · intro a n idx htail hle
    rw [tailReserved_iff]
    intro b h1 h2
    have h1a : a.blockCount ≤ b := h1
    have h2a : b < MI_BITMAP_FIELD_BITS * a.fieldCount := h2
    show ((bmUnclaimAcross a.inuse n idx).1).testBit b = true
    unfold bmUnclaimAcross
    simp only
    rw [testBit_bmClearRange, (tailReserved_iff a).mp htail b h1a h2a,
      show (decide (idx ≤ b) && decide (b < idx + n)) = false by
        simp only [Bool.and_eq_false_iff, decide_eq_false_iff_not]
        omega]
    rfl

/-- A one-block one-field arena with the 63 tail bits in use, exactly the
arena created by the C8 witness reservation. -/
def arenaC8 : Arena :=
  ⟨1, _mi_memid_none, 0, 1, 1, 0, false, false, 0, 0, 0, some 0, some 0, 0,
   18446744073709551614⟩

/-- Witness for C8: a one-block arena creation, a claim of its only free
block, and the release of that block. -/
theorem C8_tail_blocks_witness :
    (∃ arena : Arena, (⟨1, [some arenaC8]⟩ : Registry).arenas
          = (⟨0, [none]⟩ : Registry).arenas.set (⟨0, [none]⟩ : Registry).count (some arena) ∧
        arena.id = 1 ∧ tailReserved arena = true) ∧
    (0 + 1 ≤ arenaC8.blockCount ∧
      tailReserved { arenaC8 with inuse := 18446744073709551615 } = true) ∧
    tailReserved { { arenaC8 with inuse := 18446744073709551615 } with
        inuse := (bmUnclaimAcross
          ({ arenaC8 with inuse := 18446744073709551615 } : Arena).inuse 1 0).1 } = true :=
  ⟨(C8_tail_blocks osW).1 ⟨0, [none]⟩ 0 MI_ARENA_BLOCK_SIZE false 0 false _mi_memid_none
      ⟨1, [some arenaC8]⟩ 1 (by decide),
   (C8_tail_blocks osW).2.1 arenaC8 1 { arenaC8 with inuse := 18446744073709551615 } 0
      (by decide) (by decide) (by decide),
   (C8_tail_blocks osW).2.2 { arenaC8 with inuse := 18446744073709551615 } 1 0
      (by decide) (by decide)⟩

end MimallocArena
